import Mathlib

/-!
# crypto-service: a verification development

A shallow embedding of `src/crypto-service/main.go` (package-level `key`, `init`, `encrypt`,
`handleEncrypt`) together with the library behaviour the program depends on:

* `crypto/aes` (FIPS-197 block cipher, following the word-oriented generic implementation),
* `crypto/cipher` GCM (NIST SP 800-38D, 96-bit nonce, 128-bit tag),
* `crypto/rand` as an explicit oracle that is threaded through every call,
* `encoding/base64` (standard alphabet, padded),
* `encoding/json` decoding into the struct `EncryptRequest`,
* `net/http` responses as plain records.

Bytes are natural numbers in `0..255`; 32-bit words are natural numbers below `2^32`.
-/

namespace CryptoService

/-! ## Outcomes of Go calls -/

/-- Result of running a Go call: it either returns a value or panics. -/
inductive Exec (α : Type) where
  | done (val : α)
  | panic (msg : String)
deriving Repr, DecidableEq

deriving instance DecidableEq for Except

/-- Go `error` values: `none` is `nil`, `some msg` is an error with that message. -/
abbrev GoError := Option String

/-! ## crypto/aes -/

/-- Table `sbox0` of crypto/aes: the FIPS-197 substitution box. -/
def sbox0 : List Nat :=
  [0x63, 0x7c, 0x77, 0x7b, 0xf2, 0x6b, 0x6f, 0xc5, 0x30, 0x01, 0x67, 0x2b, 0xfe, 0xd7, 0xab, 0x76,
   0xca, 0x82, 0xc9, 0x7d, 0xfa, 0x59, 0x47, 0xf0, 0xad, 0xd4, 0xa2, 0xaf, 0x9c, 0xa4, 0x72, 0xc0,
   0xb7, 0xfd, 0x93, 0x26, 0x36, 0x3f, 0xf7, 0xcc, 0x34, 0xa5, 0xe5, 0xf1, 0x71, 0xd8, 0x31, 0x15,
   0x04, 0xc7, 0x23, 0xc3, 0x18, 0x96, 0x05, 0x9a, 0x07, 0x12, 0x80, 0xe2, 0xeb, 0x27, 0xb2, 0x75,
   0x09, 0x83, 0x2c, 0x1a, 0x1b, 0x6e, 0x5a, 0xa0, 0x52, 0x3b, 0xd6, 0xb3, 0x29, 0xe3, 0x2f, 0x84,
   0x53, 0xd1, 0x00, 0xed, 0x20, 0xfc, 0xb1, 0x5b, 0x6a, 0xcb, 0xbe, 0x39, 0x4a, 0x4c, 0x58, 0xcf,
   0xd0, 0xef, 0xaa, 0xfb, 0x43, 0x4d, 0x33, 0x85, 0x45, 0xf9, 0x02, 0x7f, 0x50, 0x3c, 0x9f, 0xa8,
   0x51, 0xa3, 0x40, 0x8f, 0x92, 0x9d, 0x38, 0xf5, 0xbc, 0xb6, 0xda, 0x21, 0x10, 0xff, 0xf3, 0xd2,
   0xcd, 0x0c, 0x13, 0xec, 0x5f, 0x97, 0x44, 0x17, 0xc4, 0xa7, 0x7e, 0x3d, 0x64, 0x5d, 0x19, 0x73,
   0x60, 0x81, 0x4f, 0xdc, 0x22, 0x2a, 0x90, 0x88, 0x46, 0xee, 0xb8, 0x14, 0xde, 0x5e, 0x0b, 0xdb,
   0xe0, 0x32, 0x3a, 0x0a, 0x49, 0x06, 0x24, 0x5c, 0xc2, 0xd3, 0xac, 0x62, 0x91, 0x95, 0xe4, 0x79,
   0xe7, 0xc8, 0x37, 0x6d, 0x8d, 0xd5, 0x4e, 0xa9, 0x6c, 0x56, 0xf4, 0xea, 0x65, 0x7a, 0xae, 0x08,
   0xba, 0x78, 0x25, 0x2e, 0x1c, 0xa6, 0xb4, 0xc6, 0xe8, 0xdd, 0x74, 0x1f, 0x4b, 0xbd, 0x8b, 0x8a,
   0x70, 0x3e, 0xb5, 0x66, 0x48, 0x03, 0xf6, 0x0e, 0x61, 0x35, 0x57, 0xb9, 0x86, 0xc1, 0x1d, 0x9e,
   0xe1, 0xf8, 0x98, 0x11, 0x69, 0xd9, 0x8e, 0x94, 0x9b, 0x1e, 0x87, 0xe9, 0xce, 0x55, 0x28, 0xdf,
   0x8c, 0xa1, 0x89, 0x0d, 0xbf, 0xe6, 0x42, 0x68, 0x41, 0x99, 0x2d, 0x0f, 0xb0, 0x54, 0xbb, 0x16]

/-- Table `powx` of crypto/aes: powers of x in GF(2^8), the round constants. -/
def powx : List Nat :=
  [0x01, 0x02, 0x04, 0x08, 0x10, 0x20, 0x40, 0x80, 0x1b, 0x36, 0x6c, 0xd8, 0xab, 0x4d, 0x9a, 0x2f]

/-- Lookup `sbox0[uint8(b)]`. -/
def sub (b : Nat) : Nat := sbox0.getD (b % 256) 0

/-- Multiplication by x in GF(2^8) modulo x^8 + x^4 + x^3 + x + 1, on a byte. -/
def mul2 (b : Nat) : Nat := if b % 256 < 128 then 2 * (b % 256) else (2 * (b % 256)) ^^^ 0x11b

/-- Multiplication by x + 1 in GF(2^8). -/
def mul3 (b : Nat) : Nat := mul2 b ^^^ (b % 256)

/-- Big-endian 32-bit word from four bytes (`byteorder.BeUint32`). -/
def beUint32 (b0 b1 b2 b3 : Nat) : Nat :=
  (b0 % 256) * 16777216 + (b1 % 256) * 65536 + (b2 % 256) * 256 + b3 % 256

/-- Big-endian bytes of a 32-bit word (`byteorder.BePutUint32`). -/
def bePutUint32 (w : Nat) : List Nat :=
  [w / 16777216 % 256, w / 65536 % 256, w / 256 % 256, w % 256]

/-- Entry `te0[x]`: the column (2s, s, s, 3s) for s = sbox0[x]. -/
def te0 (x : Nat) : Nat := beUint32 (mul2 (sub x)) (sub x) (sub x) (mul3 (sub x))

/-- Entry `te1[x]`: the column (3s, 2s, s, s). -/
def te1 (x : Nat) : Nat := beUint32 (mul3 (sub x)) (mul2 (sub x)) (sub x) (sub x)

/-- Entry `te2[x]`: the column (s, 3s, 2s, s). -/
def te2 (x : Nat) : Nat := beUint32 (sub x) (mul3 (sub x)) (mul2 (sub x)) (sub x)

/-- Entry `te3[x]`: the column (s, s, 3s, 2s). -/
def te3 (x : Nat) : Nat := beUint32 (sub x) (sub x) (mul3 (sub x)) (mul2 (sub x))

/-- Function `subw` of crypto/aes: the S-box applied to each byte of a word. -/
def subw (w : Nat) : Nat :=
  beUint32 (sub (w / 16777216)) (sub (w / 65536)) (sub (w / 256)) (sub w)

/-- Function `rotw` of crypto/aes: `w<<8 | w>>24` on a 32-bit word. -/
def rotw (w : Nat) : Nat := (w * 256) % 4294967296 + w / 16777216 % 256

/-- Reads the key bytes as `nk` big-endian words (first loop of `expandKeyGo`). -/
def keyWords : Nat → List Nat → List Nat
  | 0, _ => []
  | n + 1, key =>
    beUint32 (key.getD 0 0) (key.getD 1 0) (key.getD 2 0) (key.getD 3 0) :: keyWords n (key.drop 4)

/-- One iteration of the second loop of `expandKeyGo`: appends `enc[i]` for `i = enc.length`. -/
def expandStep (nk : Nat) (enc : List Nat) : List Nat :=
  let i := enc.length
  let t := enc.getD (i - 1) 0
  let t :=
    if i % nk = 0 then subw (rotw t) ^^^ (powx.getD (i / nk - 1) 0 * 16777216)
    else if nk > 6 ∧ i % nk = 4 then subw t
    else t
  enc ++ [enc.getD (i - nk) 0 ^^^ t]

/-- Function `expandKeyGo` (encryption schedule): `len(key) + 28` round-key words. -/
def expandKeyGo (key : List Nat) : List Nat :=
  let nk := key.length / 4
  Nat.iterate (expandStep nk) (key.length + 28 - nk) (keyWords nk key)

/-- The middle rounds of `encryptBlockGo`: `r` table rounds starting at round-key offset `k`. -/
def encRounds (xk : List Nat) : Nat → Nat → Nat × Nat × Nat × Nat → Nat × Nat × Nat × Nat
  | 0, _, s => s
  | r + 1, k, (s0, s1, s2, s3) =>
    let t0 := xk.getD k 0 ^^^ te0 (s0 / 16777216) ^^^ te1 (s1 / 65536) ^^^ te2 (s2 / 256) ^^^ te3 s3
    let t1 := xk.getD (k + 1) 0 ^^^ te0 (s1 / 16777216) ^^^ te1 (s2 / 65536) ^^^ te2 (s3 / 256)
      ^^^ te3 s0
    let t2 := xk.getD (k + 2) 0 ^^^ te0 (s2 / 16777216) ^^^ te1 (s3 / 65536) ^^^ te2 (s0 / 256)
      ^^^ te3 s1
    let t3 := xk.getD (k + 3) 0 ^^^ te0 (s3 / 16777216) ^^^ te1 (s0 / 65536) ^^^ te2 (s1 / 256)
      ^^^ te3 s2
    encRounds xk r (k + 4) (t0, t1, t2, t3)

/-- Function `encryptBlockGo`: encrypts one 16-byte block under the round keys `xk`. -/
def encryptBlockGo (xk : List Nat) (src : List Nat) : List Nat :=
  let s0 := beUint32 (src.getD 0 0) (src.getD 1 0) (src.getD 2 0) (src.getD 3 0) ^^^ xk.getD 0 0
  let s1 := beUint32 (src.getD 4 0) (src.getD 5 0) (src.getD 6 0) (src.getD 7 0) ^^^ xk.getD 1 0
  let s2 := beUint32 (src.getD 8 0) (src.getD 9 0) (src.getD 10 0) (src.getD 11 0) ^^^ xk.getD 2 0
  let s3 := beUint32 (src.getD 12 0) (src.getD 13 0) (src.getD 14 0) (src.getD 15 0)
    ^^^ xk.getD 3 0
  let nr := xk.length / 4 - 2
  let k := 4 + 4 * nr
  match encRounds xk nr 4 (s0, s1, s2, s3) with
  | (t0, t1, t2, t3) =>
    let u0 := beUint32 (sub (t0 / 16777216)) (sub (t1 / 65536)) (sub (t2 / 256)) (sub t3)
      ^^^ xk.getD k 0
    let u1 := beUint32 (sub (t1 / 16777216)) (sub (t2 / 65536)) (sub (t3 / 256)) (sub t0)
      ^^^ xk.getD (k + 1) 0
    let u2 := beUint32 (sub (t2 / 16777216)) (sub (t3 / 65536)) (sub (t0 / 256)) (sub t1)
      ^^^ xk.getD (k + 2) 0
    let u3 := beUint32 (sub (t3 / 16777216)) (sub (t0 / 65536)) (sub (t1 / 256)) (sub t2)
      ^^^ xk.getD (k + 3) 0
    bePutUint32 u0 ++ bePutUint32 u1 ++ bePutUint32 u2 ++ bePutUint32 u3

/-- The `cipher.Block` returned by `aes.NewCipher`: the expanded encryption key. -/
structure AesCipher where
  enc : List Nat
deriving Repr, DecidableEq

/-- Method `BlockSize` of the AES block: always 16. -/
def AesCipher.blockSize (_ : AesCipher) : Nat := 16

/-- Method `Encrypt` of the AES block on one 16-byte block. -/
def AesCipher.encrypt (c : AesCipher) (src : List Nat) : List Nat := encryptBlockGo c.enc src

/-- Function `aes.NewCipher`: a key of 16, 24 or 32 bytes gives a block cipher, any other
length the error `KeySizeError`. -/
def newCipher (key : List Nat) : Except String AesCipher :=
  if key.length = 16 ∨ key.length = 24 ∨ key.length = 32 then
    .ok ⟨expandKeyGo key⟩
  else
    .error ("crypto/aes: invalid key size " ++ toString key.length)

/-! ## crypto/cipher: Galois/Counter Mode -/

/-- Block size of GCM (`gcmBlockSize`). -/
def gcmBlockSize : Nat := 16

/-- Tag size of GCM (`gcmTagSize`). -/
def gcmTagSize : Nat := 16

/-- Nonce size of GCM (`gcmStandardNonceSize`). -/
def gcmStandardNonceSize : Nat := 12

/-- Largest plaintext `Seal` accepts: `((1<<32)-2) * gcmBlockSize` bytes. -/
def gcmMaxPlaintext : Nat := (2 ^ 32 - 2) * gcmBlockSize

/-- The AEAD returned by `cipher.NewGCM`. -/
structure GCM where
  cipher : AesCipher
  nonceSize : Nat
  tagSize : Nat
deriving Repr, DecidableEq

/-- Function `cipher.NewGCM`: requires a 128-bit block cipher. -/
def newGCM (b : AesCipher) : Except String GCM :=
  if b.blockSize ≠ gcmBlockSize then
    .error "cipher: NewGCM requires 128-bit block cipher"
  else
    .ok ⟨b, gcmStandardNonceSize, gcmTagSize⟩

/-- Function `subtle.XORBytes`: byte-wise exclusive or over the common length. -/
def xorBytes (x y : List Nat) : List Nat := List.zipWith (fun a b => a ^^^ b) x y

/-- Big-endian value of a byte sequence. -/
def beNat (bs : List Nat) : Nat := bs.foldl (fun acc b => acc * 256 + b % 256) 0

/-- Big-endian bytes of the low `8 * n` bits of a number, most significant first. -/
def bePut : Nat → Nat → List Nat
  | 0, _ => []
  | n + 1, v => (v / 256 ^ n % 256) :: bePut n v

/-- A (possibly short) block as a GF(2^128) element: zero-padded to 16 bytes, big-endian. -/
def fieldElement (block : List Nat) : Nat :=
  beNat (block.take 16 ++ List.replicate (16 - block.length) 0)

/-- The reduction constant of GCM: the polynomial x^128 + x^7 + x^2 + x + 1 in GCM bit order. -/
def gcmReduction : Nat := 0xe1 * 2 ^ 120

/-- Shift-and-add multiplication in GF(2^128): with `i + 1` steps left, bit `i` of `x`
(bit 127 is GCM bit 0) selects whether the running multiple `v` is added to `z`. -/
def mulLoop : Nat → Nat → Nat → Nat → Nat
  | 0, _, _, z => z
  | i + 1, x, v, z =>
    mulLoop i x (if v % 2 = 1 then (v / 2) ^^^ gcmReduction else v / 2)
      (if x / 2 ^ i % 2 = 1 then z ^^^ v else z)

/-- Product of two field elements (what `gcm.mul` computes with its product table). -/
def gfMul (x y : Nat) : Nat := mulLoop 128 x y 0

/-- Method `updateBlocks` followed by the padded partial block of `update`: folds the data,
sixteen bytes at a time, into the GHASH accumulator `y` under hash key `h`. -/
def update (h : Nat) : Nat → Nat → List Nat → Nat
  | 0, y, _ => y
  | fuel + 1, y, data =>
    if data.isEmpty then y
    else update h fuel (gfMul (y ^^^ fieldElement (data.take 16)) h) (data.drop 16)

/-- The hash key H: the encryption of the zero block, as computed by `NewGCM`. -/
def GCM.hashKey (g : GCM) : Nat := beNat (g.cipher.encrypt (List.replicate 16 0))

/-- Function `gcmInc32`: increments the last four bytes of the counter block as a
big-endian 32-bit number, wrapping around. -/
def gcmInc32 (counter : List Nat) : List Nat :=
  counter.take 12 ++ bePut 4 ((beNat (counter.drop 12) + 1) % 4294967296)

/-- Method `deriveCounter` for the standard 12-byte nonce: `nonce || 00 00 00 01`. -/
def deriveCounter (nonce : List Nat) : List Nat := nonce ++ [0, 0, 0, 1]

/-- Method `counterCrypt`: XORs the input with the AES-CTR key stream starting at `counter`. -/
def GCM.counterCrypt (g : GCM) : Nat → List Nat → List Nat → List Nat
  | 0, _, _ => []
  | fuel + 1, counter, inp =>
    if inp.isEmpty then []
    else
      xorBytes (inp.take 16) (g.cipher.encrypt counter)
        ++ GCM.counterCrypt g fuel (gcmInc32 counter) (inp.drop 16)

/-- Method `auth`: GHASH over the additional data, the ciphertext and their bit lengths,
masked with the encrypted initial counter block. -/
def GCM.auth (g : GCM) (ciphertext additionalData tagMask : List Nat) : List Nat :=
  let h := g.hashKey
  let y := update h additionalData.length 0 additionalData
  let y := update h ciphertext.length y ciphertext
  let y := y ^^^ ((additionalData.length * 8 % 2 ^ 64) * 2 ^ 64 + ciphertext.length * 8 % 2 ^ 64)
  xorBytes (bePut 16 (gfMul y h)) tagMask

/-- Method `Seal` of the AEAD: appends ciphertext and tag to `dst`. Panics on a nonce of the
wrong length and on a plaintext above `gcmMaxPlaintext`. -/
def GCM.seal (g : GCM) (dst nonce plaintext data : List Nat) : Exec (List Nat) :=
  if nonce.length ≠ g.nonceSize then
    .panic "crypto/cipher: incorrect nonce length given to GCM"
  else if plaintext.length > gcmMaxPlaintext then
    .panic "crypto/cipher: message too large for GCM"
  else
    let counter := deriveCounter nonce
    let tagMask := g.cipher.encrypt counter
    let counter := gcmInc32 counter
    let out := g.counterCrypt plaintext.length counter plaintext
    let tag := g.auth out data tagMask
    .done (dst ++ out ++ tag)

/-- Method `Open` of the AEAD (crypto/cipher; the service itself never decrypts): checks the
tag over the ciphertext and, when it matches, removes the key stream. -/
def GCM.open (g : GCM) (dst nonce ciphertext data : List Nat) : Exec (List Nat × GoError) :=
  if nonce.length ≠ g.nonceSize then
    .panic "crypto/cipher: incorrect nonce length given to GCM"
  else if ciphertext.length < g.tagSize then
    .done ([], some "cipher: message authentication failed")
  else if ciphertext.length > gcmMaxPlaintext + g.tagSize then
    .done ([], some "cipher: message authentication failed")
  else
    let tag := ciphertext.drop (ciphertext.length - g.tagSize)
    let ciphertext := ciphertext.take (ciphertext.length - g.tagSize)
    let counter := deriveCounter nonce
    let tagMask := g.cipher.encrypt counter
    let counter := gcmInc32 counter
    let expectedTag := g.auth ciphertext data tagMask
    if expectedTag.take g.tagSize ≠ tag then
      .done ([], some "cipher: message authentication failed")
    else
      .done (dst ++ g.counterCrypt ciphertext.length counter ciphertext, none)

/-- The AEAD that `cipher.NewGCM(aes.NewCipher(key))` yields for a key of valid length. -/
def gcmOf (key : List Nat) : GCM := ⟨⟨expandKeyGo key⟩, gcmStandardNonceSize, gcmTagSize⟩

/-! ## crypto/rand -/

/-- The system CSPRNG as an oracle: `outcome i` is what the `i`-th call to `rand.Read` does,
either an error or a stream of random values from which the requested bytes are taken;
`calls` counts the calls made so far. -/
structure Rand where
  outcome : Nat → Except String (Nat → Nat)
  calls : Nat

/-- Function `rand.Read` on a buffer of `n` bytes: fills the whole buffer or returns an error.
Each call consumes one outcome of the oracle. -/
def Rand.read (r : Rand) (n : Nat) : Except String (List Nat) × Rand :=
  match r.outcome r.calls with
  | .error e => (.error e, ⟨r.outcome, r.calls + 1⟩)
  | .ok stream => (.ok ((List.range n).map fun j => stream j % 256), ⟨r.outcome, r.calls + 1⟩)

/-! ## encoding/base64 -/

/-- The standard alphabet `encodeStd` of RFC 4648. -/
def encodeStd : List Char :=
  "ABCDEFGHIJKLMNOPQRSTUVWXYZabcdefghijklmnopqrstuvwxyz0123456789+/".data

/-- The padding character `StdPadding`. -/
def stdPadding : Char := '='

/-- Alphabet character of a 6-bit value. -/
def encodeChar (i : Nat) : Char := encodeStd.getD i stdPadding

/-- Method `StdEncoding.Encode`: three bytes give four characters; a final group of one
or two bytes is padded with `=`. -/
def encodeChars : List Nat → List Char
  | a :: b :: c :: rest =>
    let val := a * 65536 + b * 256 + c
    encodeChar (val / 262144 % 64) :: encodeChar (val / 4096 % 64) :: encodeChar (val / 64 % 64)
      :: encodeChar (val % 64) :: encodeChars rest
  | [a, b] =>
    let val := a * 65536 + b * 256
    [encodeChar (val / 262144 % 64), encodeChar (val / 4096 % 64), encodeChar (val / 64 % 64),
      stdPadding]
  | [a] =>
    let val := a * 65536
    [encodeChar (val / 262144 % 64), encodeChar (val / 4096 % 64), stdPadding, stdPadding]
  | [] => []

/-- Method `StdEncoding.EncodeToString`. -/
def encodeToString (src : List Nat) : String := String.mk (encodeChars src)

/-- The 6-bit value of an alphabet character, `none` outside the alphabet. -/
def decodeChar (c : Char) : Option Nat :=
  if encodeStd.indexOf c < 64 then some (encodeStd.indexOf c) else none

/-- Decoding of padded standard base64, four characters at a time; padding is accepted only
in the last group. -/
def decodeChars : List Char → Option (List Nat)
  | [] => some []
  | c0 :: c1 :: c2 :: c3 :: rest =>
    if rest = [] ∧ c3 = stdPadding then
      if c2 = stdPadding then
        match decodeChar c0, decodeChar c1 with
        | some d0, some d1 => some [(d0 * 262144 + d1 * 4096) / 65536 % 256]
        | _, _ => none
      else
        match decodeChar c0, decodeChar c1, decodeChar c2 with
        | some d0, some d1, some d2 =>
          let val := d0 * 262144 + d1 * 4096 + d2 * 64
          some [val / 65536 % 256, val / 256 % 256]
        | _, _, _ => none
    else
      match decodeChar c0, decodeChar c1, decodeChar c2, decodeChar c3, decodeChars rest with
      | some d0, some d1, some d2, some d3, some tail =>
        let val := d0 * 262144 + d1 * 4096 + d2 * 64 + d3
        some (val / 65536 % 256 :: val / 256 % 256 :: val % 256 :: tail)
      | _, _, _, _, _ => none
  | _ => none

/-- Method `StdEncoding.DecodeString` on text without line breaks. -/
def decodeString (s : String) : Option (List Nat) := decodeChars s.data

/-! ## Strings as bytes -/

/-- Function `utf8.EncodeRune`: the UTF-8 bytes of one code point. -/
def encodeRune (r : Nat) : List Nat :=
  if r < 0x80 then [r]
  else if r < 0x800 then [0xC0 + r / 64, 0x80 + r % 64]
  else if r < 0x10000 then [0xE0 + r / 4096, 0x80 + r / 64 % 64, 0x80 + r % 64]
  else [0xF0 + r / 262144, 0x80 + r / 4096 % 64, 0x80 + r / 64 % 64, 0x80 + r % 64]

/-- UTF-8 bytes of a sequence of characters. -/
def utf8Chars : List Char → List Nat
  | [] => []
  | c :: cs => encodeRune c.toNat ++ utf8Chars cs

/-- The conversion `[]byte(s)`: a Go string is its UTF-8 bytes. -/
def bytesOf (s : String) : List Nat := utf8Chars s.data

/-! ## encoding/json: decoding into `EncryptRequest` -/

/-- A JSON value as delivered by the scanner; string escapes are already resolved. -/
inductive JValue where
  | null
  | bool (b : Bool)
  | number (literal : String)
  | str (s : String)
  | array (elems : List JValue)
  | object (members : List (String × JValue))

/-- Name of a value's JSON kind, as used in `UnmarshalTypeError.Value`. -/
def JValue.kind : JValue → String
  | .null => "null"
  | .bool _ => "bool"
  | .number _ => "number"
  | .str _ => "string"
  | .array _ => "array"
  | .object _ => "object"

/-- Whether the value is a JSON string. -/
def JValue.isString : JValue → Bool
  | .str _ => true
  | _ => false

/-- Whether the value is JSON `null`. -/
def JValue.isNull : JValue → Bool
  | .null => true
  | _ => false

/-- Whether the value is a JSON object. -/
def JValue.isObject : JValue → Bool
  | .object _ => true
  | _ => false

/-- What `json.NewDecoder(r.Body)` reads from the body: the first JSON value of the stream,
or the error met while reading it (syntax error, `EOF` for an empty body, read error). -/
inductive Body where
  | invalid (err : String)
  | value (v : JValue)

/-- Struct `EncryptRequest` of main.go. -/
structure EncryptRequest where
  Data : String
deriving Repr, DecidableEq

/-- Struct `EncryptResponse` of main.go. -/
structure EncryptResponse where
  EncryptedData : String
  Architecture : String
  TimeMs : Int
deriving Repr, DecidableEq

/-- Whether an object key selects the field `Data`, tagged with the JSON name data:
encoding/json accepts the exact name and any case-insensitive match. -/
def matchesData (key : String) : Bool := key.data.map Char.toLower = "data".data

/-- Message of an `UnmarshalTypeError`. -/
def typeError (kind target : String) : String :=
  "json: cannot unmarshal " ++ kind ++ " into Go " ++ target

/-- Decoding of one object member into the struct: a string sets `Data`, `null` leaves it
unchanged, any other kind records a type error (the first one is kept); keys that do not
select the field are skipped. -/
def decodeMember (st : EncryptRequest × GoError) (m : String × JValue) :
    EncryptRequest × GoError :=
  if matchesData m.1 then
    match m.2 with
    | .str s => (⟨s⟩, st.2)
    | .null => st
    | v =>
      (st.1, match st.2 with
        | some e => some e
        | none => some (typeError v.kind "struct field EncryptRequest.data of type string"))
  else st

/-- Unmarshalling of a JSON value into a zero `EncryptRequest`: objects are decoded member by
member, `null` is a no-op, every other kind is a type error. -/
def unmarshal : JValue → EncryptRequest × GoError
  | .object members => members.foldl decodeMember (⟨""⟩, none)
  | .null => (⟨""⟩, none)
  | v => (⟨""⟩, some (typeError v.kind "value of type main.EncryptRequest"))

/-- The call `json.NewDecoder(r.Body).Decode(&req)` on `var req EncryptRequest`. -/
def decode : Body → EncryptRequest × GoError
  | .invalid err => (⟨""⟩, some err)
  | .value v => unmarshal v

/-! ## net/http -/

/-- An incoming request as the handler sees it. -/
structure Request where
  method : String
  body : Body

/-- Payload written to the `ResponseWriter`. -/
inductive Payload where
  | text (s : String)
  | json (r : EncryptResponse)
deriving Repr, DecidableEq

/-- What the handler wrote to the `ResponseWriter`. -/
structure Response where
  status : Nat
  contentType : String
  payload : Payload
deriving Repr, DecidableEq

/-- Function `http.Error`: plain-text reply with the given status; the message is written
with a trailing newline. -/
def httpError (msg : String) (code : Nat) : Response :=
  ⟨code, "text/plain; charset=utf-8", .text (msg ++ "\n")⟩

/-- Status of a handled request: `none` when the handler panicked before writing. -/
def statusOf : Exec Response → Option Nat
  | .done r => some r.status
  | .panic _ => none

/-! ## main.go -/

/-- Process state: the package-level `key`, the CSPRNG and the constant `runtime.GOARCH`. -/
structure World where
  key : List Nat
  rand : Rand
  goarch : String

/-- Package initialisation: `var key = make([]byte, 32)` followed by `init`, which fills the
key from the CSPRNG and panics when that fails. -/
def init (rand : Rand) (goarch : String) : Exec World :=
  match rand.read 32 with
  | (.error e, _) => .panic e
  | (.ok key, rand1) => .done ⟨key, rand1, goarch⟩

/-- Function `encrypt` of main.go. Returns the pair `([]byte, error)` or panics inside `Seal`;
the world afterwards differs only in the CSPRNG. -/
def encrypt (w : World) (data : List Nat) : Exec (List Nat × GoError) × World :=
  match newCipher w.key with
  | .error err => (.done ([], some err), w)
  | .ok block =>
    match newGCM block with
    | .error err => (.done ([], some err), w)
    | .ok gcm =>
      match w.rand.read gcm.nonceSize with
      | (.error err, rand1) => (.done ([], some err), ⟨w.key, rand1, w.goarch⟩)
      | (.ok nonce, rand1) =>
        match gcm.seal nonce nonce data [] with
        | .panic msg => (.panic msg, ⟨w.key, rand1, w.goarch⟩)
        | .done sealed => (.done (sealed, none), ⟨w.key, rand1, w.goarch⟩)

/-- Function `handleEncrypt` of main.go. -/
def handleEncrypt (w : World) (r : Request) : Exec Response × World :=
  if r.method ≠ "POST" then
    (.done (httpError "Method not allowed" 405), w)
  else
    match decode r.body with
    | (_, some err) => (.done (httpError err 400), w)
    | (req, none) =>
      match encrypt w (bytesOf req.Data) with
      | (.panic msg, w1) => (.panic msg, w1)
      | (.done (_, some err), w1) => (.done (httpError err 500), w1)
      | (.done (encrypted, none), w1) =>
        (.done ⟨200, "application/json", .json ⟨encodeToString encrypted, w.goarch, 0⟩⟩, w1)

/-- The server loop of `http.ListenAndServe` restricted to this handler, one request after
the other: a panic ends that request only. -/
def serve (w : World) : List Request → List (Exec Response) × World
  | [] => ([], w)
  | r :: rs =>
    match handleEncrypt w r with
    | (out, w1) =>
      match serve w1 rs with
      | (outs, w2) => (out :: outs, w2)

/-! ## Sample inputs -/

/-- A CSPRNG that never fails: call `i` delivers the bytes `7 * i + j` for `j = 0, 1, ...`. -/
def sampleRand : Rand := ⟨fun i => .ok fun j => 7 * i + j, 0⟩

/-- A CSPRNG whose first call succeeds and whose second call fails. -/
def flakyRand : Rand :=
  ⟨fun i => if i = 1 then .error "crypto/rand: read failed" else .ok fun j => 3 * i + j, 0⟩

/-- The process state after `init` under `sampleRand` on an amd64 host. -/
def sampleWorld : World := ⟨List.range 32, ⟨sampleRand.outcome, 1⟩, "amd64"⟩

/-- The process state after `init` under `flakyRand`: the next CSPRNG read fails, the one
after it succeeds. -/
def flakyWorld : World := ⟨List.range 32, ⟨flakyRand.outcome, 1⟩, "arm64"⟩

/-- A POST request whose body is the object with the one member data: 5. -/
def numberDataRequest : Request := ⟨"POST", .value (.object [("data", .number "5")])⟩

/-- A POST request whose body is the object with the one member data: null. -/
def nullDataRequest : Request := ⟨"POST", .value (.object [("data", .null)])⟩

/-- A GET request whose body is the object with the one member data: hello. -/
def getRequest : Request := ⟨"GET", .value (.object [("data", .str "hello")])⟩

/-- A string of `gcmMaxPlaintext + 1` letters `a`: one byte more than `Seal` accepts. -/
def hugeData : String := String.mk (List.replicate (gcmMaxPlaintext + 1) 'a')

/-- A POST request whose body is the object with the one member data: `hugeData`. -/
def hugeRequest : Request := ⟨"POST", .value (.object [("data", .str hugeData)])⟩

/-- A POST request whose body is the object with the one member data: hello. -/
def helloRequest : Request := ⟨"POST", .value (.object [("data", .str "hello")])⟩

/-- A POST request whose body is the object with the one member data: empty string. -/
def emptyDataRequest : Request := ⟨"POST", .value (.object [("data", .str "")])⟩

/-- A POST request whose body is the empty object. -/
def emptyObjectRequest : Request := ⟨"POST", .value (.object [])⟩

/-! ## Lengths -/

theorem bePutUint32_length (w : Nat) : (bePutUint32 w).length = 4 := rfl

theorem encryptBlockGo_length (xk src : List Nat) : (encryptBlockGo xk src).length = 16 := by
  unfold encryptBlockGo
  simp only [List.length_append, bePutUint32_length]

theorem AesCipher.encrypt_length (c : AesCipher) (src : List Nat) :
    (c.encrypt src).length = 16 := encryptBlockGo_length _ _

theorem xorBytes_length (x y : List Nat) : (xorBytes x y).length = min x.length y.length := by
  simp [xorBytes]

theorem bePut_length (n v : Nat) : (bePut n v).length = n := by
  induction n with
  | zero => rfl
  | succ n ih => simp [bePut, ih]

theorem counterCrypt_length (g : GCM) (fuel : Nat) :
    ∀ (counter inp : List Nat), inp.length ≤ fuel →
      (g.counterCrypt fuel counter inp).length = inp.length := by
  induction fuel with
  | zero =>
    intro counter inp h
    have : inp = [] := List.length_eq_zero.mp (Nat.le_zero.mp h)
    subst this
    rfl
  | succ fuel ih =>
    intro counter inp h
    unfold GCM.counterCrypt
    by_cases he : inp.isEmpty
    · simp only [he, if_true]
      simp [List.isEmpty_iff.mp he]
    · simp only [he, Bool.false_eq_true, if_false, List.length_append, xorBytes_length,
        AesCipher.encrypt_length, List.length_take]
      rw [ih _ _ (by simp only [List.length_drop]; omega)]
      simp only [List.length_drop]
      omega

theorem auth_length (g : GCM) (ct aad mask : List Nat) (h : mask.length = 16) :
    (g.auth ct aad mask).length = 16 := by
  simp [GCM.auth, xorBytes_length, bePut_length, h]

/-! ## Fuel is only a bound -/

/-- The fuel of `update` is only a bound: any amount that covers the data gives the same
result. -/
theorem update_fuel (h : Nat) (fuel1 : Nat) :
    ∀ (fuel2 y : Nat) (data : List Nat), data.length ≤ fuel1 → data.length ≤ fuel2 →
      update h fuel1 y data = update h fuel2 y data := by
  induction fuel1 with
  | zero =>
    intro fuel2 y data h1 _
    have : data = [] := List.length_eq_zero.mp (Nat.le_zero.mp h1)
    subst this
    cases fuel2 <;> simp [update]
  | succ fuel1 ih =>
    intro fuel2 y data h1 h2
    by_cases he : data = []
    · subst he
      cases fuel2 <;> simp [update]
    · have hpos : 0 < data.length := List.length_pos.mpr he
      cases fuel2 with
      | zero => omega
      | succ fuel2 =>
        simp only [update, List.isEmpty_iff, he, if_false]
        exact ih _ _ _ (by simp only [List.length_drop]; omega)
          (by simp only [List.length_drop]; omega)

/-- The fuel of `counterCrypt` is only a bound: any amount that covers the input gives the
same result. -/
theorem counterCrypt_fuel (g : GCM) (fuel1 : Nat) :
    ∀ (fuel2 : Nat) (counter inp : List Nat), inp.length ≤ fuel1 → inp.length ≤ fuel2 →
      g.counterCrypt fuel1 counter inp = g.counterCrypt fuel2 counter inp := by
  induction fuel1 with
  | zero =>
    intro fuel2 counter inp h1 _
    have : inp = [] := List.length_eq_zero.mp (Nat.le_zero.mp h1)
    subst this
    cases fuel2 <;> simp [GCM.counterCrypt]
  | succ fuel1 ih =>
    intro fuel2 counter inp h1 h2
    by_cases he : inp = []
    · subst he
      cases fuel2 <;> simp [GCM.counterCrypt]
    · have hpos : 0 < inp.length := List.length_pos.mpr he
      cases fuel2 with
      | zero => omega
      | succ fuel2 =>
        simp only [GCM.counterCrypt, List.isEmpty_iff, he, if_false]
        rw [ih fuel2 (gcmInc32 counter) (inp.drop 16)
          (by simp only [List.length_drop]; omega)
          (by simp only [List.length_drop]; omega)]

/-! ## The key stream is an involution -/

theorem xorBytes_cancel : ∀ (x m : List Nat), x.length ≤ m.length →
    xorBytes (xorBytes x m) m = x := by
  intro x
  induction x with
  | nil => intro m _; simp [xorBytes]
  | cons a x ih =>
    intro m h
    cases m with
    | nil => simp at h
    | cons b m =>
      simp only [xorBytes, List.zipWith_cons_cons, List.cons.injEq]
      refine ⟨?_, ih m (by simpa using h)⟩
      rw [Nat.xor_assoc, Nat.xor_self, Nat.xor_zero]

theorem counterCrypt_cancel (g : GCM) (fuel : Nat) :
    ∀ (counter inp : List Nat), inp.length ≤ fuel →
      g.counterCrypt fuel counter (g.counterCrypt fuel counter inp) = inp := by
  induction fuel with
  | zero =>
    intro counter inp h
    have : inp = [] := List.length_eq_zero.mp (Nat.le_zero.mp h)
    subst this
    rfl
  | succ fuel ih =>
    intro counter inp h
    by_cases he : inp = []
    · subst he; rfl
    · have hpos : 0 < inp.length := List.length_pos.mpr he
      have hlen : (xorBytes (inp.take 16) (g.cipher.encrypt counter)).length
          = min 16 inp.length := by
        simp [xorBytes_length, AesCipher.encrypt_length]
      have hstep : g.counterCrypt (fuel + 1) counter inp
          = xorBytes (inp.take 16) (g.cipher.encrypt counter)
            ++ g.counterCrypt fuel (gcmInc32 counter) (inp.drop 16) := by
        rw [GCM.counterCrypt]
        simp [he]
      have hne : g.counterCrypt (fuel + 1) counter inp ≠ [] := by
        intro h0
        have := congrArg List.length h0
        rw [counterCrypt_length g _ _ _ h] at this
        simp at this
        exact he this
      rw [GCM.counterCrypt]
      simp only [List.isEmpty_iff, hne, if_false]
      rw [hstep]
      by_cases h16 : inp.length ≤ 16
      · have hd : inp.drop 16 = [] := List.drop_eq_nil_of_le h16
        have ht : inp.take 16 = inp := List.take_of_length_le h16
        have hcc : g.counterCrypt fuel (gcmInc32 counter) [] = [] := by
          cases fuel <;> simp [GCM.counterCrypt]
        rw [hd, hcc, ht, List.append_nil]
        have hl2 : (xorBytes inp (g.cipher.encrypt counter)).length ≤ 16 := by
          simp [xorBytes_length, AesCipher.encrypt_length]
        rw [List.take_of_length_le hl2, List.drop_eq_nil_of_le hl2, hcc, List.append_nil]
        exact xorBytes_cancel _ _ (by simp [AesCipher.encrypt_length]; exact h16)
      · have h16' : 16 ≤ inp.length := by omega
        have hl2 : (xorBytes (inp.take 16) (g.cipher.encrypt counter)).length = 16 := by
          rw [hlen]; omega
        rw [List.take_left' hl2, List.drop_left' hl2]
        rw [ih _ _ (by simp only [List.length_drop]; omega)]
        rw [xorBytes_cancel _ _ (by simp [AesCipher.encrypt_length])]
        exact List.take_append_drop 16 inp

/-! ## Library calls made by `encrypt` -/

theorem newGCM_ok (b : AesCipher) : newGCM b = .ok ⟨b, 12, 16⟩ := by
  simp [newGCM, AesCipher.blockSize, gcmBlockSize, gcmStandardNonceSize, gcmTagSize]

theorem newCipher_ok (key : List Nat) (h : key.length = 16 ∨ key.length = 24 ∨ key.length = 32) :
    newCipher key = .ok ⟨expandKeyGo key⟩ := by
  simp [newCipher, h]

theorem newCipher_error (key : List Nat)
    (h : ¬ (key.length = 16 ∨ key.length = 24 ∨ key.length = 32)) :
    newCipher key = .error ("crypto/aes: invalid key size " ++ toString key.length) := by
  simp only [newCipher, h, if_false]

theorem read_fst (r : Rand) (n : Nat) :
    (r.read n).1 = match r.outcome r.calls with
      | .error e => .error e
      | .ok stream => .ok ((List.range n).map fun j => stream j % 256) := by
  unfold Rand.read
  cases r.outcome r.calls <;> rfl

theorem read_snd (r : Rand) (n : Nat) : (r.read n).2 = ⟨r.outcome, r.calls + 1⟩ := by
  unfold Rand.read
  cases r.outcome r.calls <;> rfl

theorem read_length (r : Rand) (n : Nat) (bs : List Nat) (h : (r.read n).1 = .ok bs) :
    bs.length = n := by
  rw [read_fst] at h
  split at h
  · cases h
  · injection h with h
    rw [← h]
    simp

/-- The bytes `Seal` appends for a nonce and plaintext it accepts: ciphertext then tag. -/
theorem seal_done (g : GCM) (dst nonce P aad : List Nat) (hn : nonce.length = g.nonceSize)
    (hP : P.length ≤ gcmMaxPlaintext) :
    g.seal dst nonce P aad = .done (dst
      ++ g.counterCrypt P.length (gcmInc32 (deriveCounter nonce)) P
      ++ g.auth (g.counterCrypt P.length (gcmInc32 (deriveCounter nonce)) P) aad
          (g.cipher.encrypt (deriveCounter nonce))) := by
  unfold GCM.seal
  simp only [hn, ne_eq, not_true_eq_false, if_false, Nat.not_lt.mpr hP]

theorem seal_panic (g : GCM) (dst nonce P aad : List Nat) (hn : nonce.length = g.nonceSize)
    (hP : gcmMaxPlaintext < P.length) :
    g.seal dst nonce P aad = .panic "crypto/cipher: message too large for GCM" := by
  unfold GCM.seal
  simp only [hn, ne_eq, not_true_eq_false, if_false, hP, gt_iff_lt, if_true]

/-! ## The four ways `encrypt` can end -/

theorem encrypt_bad_key (w : World) (P : List Nat)
    (h : ¬ (w.key.length = 16 ∨ w.key.length = 24 ∨ w.key.length = 32)) :
    encrypt w P
      = (.done ([], some ("crypto/aes: invalid key size " ++ toString w.key.length)), w) := by
  unfold encrypt
  rw [newCipher_error _ h]

theorem encrypt_read_error (w : World) (P : List Nat) (e : String)
    (hk : w.key.length = 16 ∨ w.key.length = 24 ∨ w.key.length = 32)
    (hr : (w.rand.read 12).1 = .error e) :
    encrypt w P = (.done ([], some e), ⟨w.key, (w.rand.read 12).2, w.goarch⟩) := by
  unfold encrypt
  rw [newCipher_ok _ hk]
  simp only [newGCM_ok]
  rcases hrd : w.rand.read 12 with ⟨res, r1⟩
  rw [hrd] at hr
  simp only at hr
  subst hr
  rfl

theorem encrypt_read_ok (w : World) (P nonce : List Nat)
    (hk : w.key.length = 16 ∨ w.key.length = 24 ∨ w.key.length = 32)
    (hr : (w.rand.read 12).1 = .ok nonce) (hP : P.length ≤ gcmMaxPlaintext) :
    encrypt w P = (.done (nonce
      ++ (gcmOf w.key).counterCrypt P.length (gcmInc32 (deriveCounter nonce)) P
      ++ (gcmOf w.key).auth ((gcmOf w.key).counterCrypt P.length (gcmInc32 (deriveCounter nonce)) P)
          [] ((gcmOf w.key).cipher.encrypt (deriveCounter nonce)), none),
      ⟨w.key, (w.rand.read 12).2, w.goarch⟩) := by
  have hn : nonce.length = 12 := read_length _ _ _ hr
  unfold encrypt
  rw [newCipher_ok _ hk]
  simp only [newGCM_ok]
  rcases hrd : w.rand.read 12 with ⟨res, r1⟩
  rw [hrd] at hr
  simp only at hr
  subst hr
  simp only
  rw [seal_done _ _ _ _ _ (by exact hn) hP]
  rfl

theorem encrypt_too_large (w : World) (P nonce : List Nat)
    (hk : w.key.length = 16 ∨ w.key.length = 24 ∨ w.key.length = 32)
    (hr : (w.rand.read 12).1 = .ok nonce) (hP : gcmMaxPlaintext < P.length) :
    encrypt w P = (.panic "crypto/cipher: message too large for GCM",
      ⟨w.key, (w.rand.read 12).2, w.goarch⟩) := by
  have hn : nonce.length = 12 := read_length _ _ _ hr
  unfold encrypt
  rw [newCipher_ok _ hk]
  simp only [newGCM_ok]
  rcases hrd : w.rand.read 12 with ⟨res, r1⟩
  rw [hrd] at hr
  simp only at hr
  subst hr
  simp only
  rw [seal_panic _ _ _ _ _ (by exact hn) hP]

theorem encrypt_success_inv (w : World) (P F : List Nat)
    (h : (encrypt w P).1 = .done (F, none)) :
    (w.key.length = 16 ∨ w.key.length = 24 ∨ w.key.length = 32) ∧ P.length ≤ gcmMaxPlaintext ∧
    ∃ nonce, (w.rand.read 12).1 = .ok nonce ∧ nonce.length = 12 ∧
      F = nonce
        ++ (gcmOf w.key).counterCrypt P.length (gcmInc32 (deriveCounter nonce)) P
        ++ (gcmOf w.key).auth
            ((gcmOf w.key).counterCrypt P.length (gcmInc32 (deriveCounter nonce)) P)
            [] ((gcmOf w.key).cipher.encrypt (deriveCounter nonce)) := by
  by_cases hk : w.key.length = 16 ∨ w.key.length = 24 ∨ w.key.length = 32
  · cases hr : (w.rand.read 12).1 with
    | error e =>
      rw [encrypt_read_error w P e hk hr] at h
      cases h
    | ok nonce =>
      by_cases hP : P.length ≤ gcmMaxPlaintext
      · rw [encrypt_read_ok w P nonce hk hr hP] at h
        injection h with h
        injection h with h _
        exact ⟨hk, hP, nonce, rfl, read_length _ _ _ hr, h.symm⟩
      · rw [encrypt_too_large w P nonce hk hr (Nat.lt_of_not_le hP)] at h
        cases h
  · rw [encrypt_bad_key w P hk] at h
    cases h

theorem encrypt_error_inv (w : World) (P bs : List Nat) (e : String)
    (h : (encrypt w P).1 = .done (bs, some e)) :
    bs = [] ∧
    ((¬ (w.key.length = 16 ∨ w.key.length = 24 ∨ w.key.length = 32) ∧
        e = "crypto/aes: invalid key size " ++ toString w.key.length) ∨
      ((w.key.length = 16 ∨ w.key.length = 24 ∨ w.key.length = 32) ∧
        (w.rand.read 12).1 = .error e)) := by
  by_cases hk : w.key.length = 16 ∨ w.key.length = 24 ∨ w.key.length = 32
  · cases hr : (w.rand.read 12).1 with
    | error e1 =>
      rw [encrypt_read_error w P e1 hk hr] at h
      injection h with h
      injection h with h1 h2
      injection h2 with h2
      exact ⟨h1.symm, Or.inr ⟨hk, by rw [h2]⟩⟩
    | ok nonce =>
      by_cases hP : P.length ≤ gcmMaxPlaintext
      · rw [encrypt_read_ok w P nonce hk hr hP] at h
        injection h with h
        injection h with _ h2
        cases h2
      · rw [encrypt_too_large w P nonce hk hr (Nat.lt_of_not_le hP)] at h
        cases h
  · rw [encrypt_bad_key w P hk] at h
    injection h with h
    injection h with h1 h2
    injection h2 with h2
    exact ⟨h1.symm, Or.inl ⟨hk, h2.symm⟩⟩

theorem encrypt_panic_inv (w : World) (P : List Nat) (msg : String)
    (h : (encrypt w P).1 = .panic msg) :
    (w.key.length = 16 ∨ w.key.length = 24 ∨ w.key.length = 32) ∧
      gcmMaxPlaintext < P.length ∧ (∃ nonce, (w.rand.read 12).1 = .ok nonce) ∧
      msg = "crypto/cipher: message too large for GCM" := by
  by_cases hk : w.key.length = 16 ∨ w.key.length = 24 ∨ w.key.length = 32
  · cases hr : (w.rand.read 12).1 with
    | error e1 =>
      rw [encrypt_read_error w P e1 hk hr] at h
      cases h
    | ok nonce =>
      by_cases hP : P.length ≤ gcmMaxPlaintext
      · rw [encrypt_read_ok w P nonce hk hr hP] at h
        cases h
      · rw [encrypt_too_large w P nonce hk hr (Nat.lt_of_not_le hP)] at h
        injection h with h
        exact ⟨hk, Nat.lt_of_not_le hP, ⟨nonce, rfl⟩, h.symm⟩
  · rw [encrypt_bad_key w P hk] at h
    cases h

theorem encrypt_key (w : World) (P : List Nat) : (encrypt w P).2.key = w.key := by
  by_cases hk : w.key.length = 16 ∨ w.key.length = 24 ∨ w.key.length = 32
  · cases hr : (w.rand.read 12).1 with
    | error e1 => rw [encrypt_read_error w P e1 hk hr]
    | ok nonce =>
      by_cases hP : P.length ≤ gcmMaxPlaintext
      · rw [encrypt_read_ok w P nonce hk hr hP]
      · rw [encrypt_too_large w P nonce hk hr (Nat.lt_of_not_le hP)]
  · rw [encrypt_bad_key w P hk]

theorem encrypt_rand (w : World) (P : List Nat)
    (hk : w.key.length = 16 ∨ w.key.length = 24 ∨ w.key.length = 32) :
    (encrypt w P).2.rand = (w.rand.read 12).2 := by
  cases hr : (w.rand.read 12).1 with
  | error e1 => rw [encrypt_read_error w P e1 hk hr]
  | ok nonce =>
    by_cases hP : P.length ≤ gcmMaxPlaintext
    · rw [encrypt_read_ok w P nonce hk hr hP]
    · rw [encrypt_too_large w P nonce hk hr (Nat.lt_of_not_le hP)]

/-! ## Opening a sealed message -/

theorem open_seal (g : GCM) (nonce P aad : List Nat) (hn : nonce.length = g.nonceSize)
    (ht : g.tagSize = 16) (hP : P.length ≤ gcmMaxPlaintext) :
    g.open [] nonce
      (g.counterCrypt P.length (gcmInc32 (deriveCounter nonce)) P
        ++ g.auth (g.counterCrypt P.length (gcmInc32 (deriveCounter nonce)) P) aad
            (g.cipher.encrypt (deriveCounter nonce))) aad
      = .done (P, none) := by
  have hct : (g.counterCrypt P.length (gcmInc32 (deriveCounter nonce)) P).length = P.length :=
    counterCrypt_length g _ _ _ (Nat.le_refl _)
  have htag : (g.auth (g.counterCrypt P.length (gcmInc32 (deriveCounter nonce)) P) aad
      (g.cipher.encrypt (deriveCounter nonce))).length = 16 :=
    auth_length g _ _ _ (AesCipher.encrypt_length _ _)
  generalize hc : g.counterCrypt P.length (gcmInc32 (deriveCounter nonce)) P = ct at hct htag
  generalize htg : g.auth ct aad (g.cipher.encrypt (deriveCounter nonce)) = tag at htag
  unfold GCM.open
  have hlen : (ct ++ tag).length = P.length + 16 := by simp [hct, htag]
  have hsub : (ct ++ tag).length - g.tagSize = ct.length := by rw [hlen, ht, hct]; omega
  simp only [hn, ne_eq, not_true_eq_false, if_false]
  rw [if_neg (by rw [hlen, ht]; omega), if_neg (by rw [hlen, ht]; omega)]
  simp only [hsub, List.take_left', List.drop_left', htg]
  rw [ht, List.take_of_length_le (Nat.le_of_eq htag)]
  simp only [ne_eq, not_true_eq_false, if_false, List.nil_append]
  rw [hct, ← hc, counterCrypt_cancel g _ _ _ (Nat.le_refl _)]

/-! ## Every produced value is a byte -/

theorem bePutUint32_lt (w b : Nat) (h : b ∈ bePutUint32 w) : b < 256 := by
  simp only [bePutUint32, List.mem_cons, List.mem_singleton, List.not_mem_nil, or_false] at h
  rcases h with h | h | h | h <;> (subst h; exact Nat.mod_lt _ (by decide))

theorem encryptBlockGo_lt (xk src : List Nat) (b : Nat) (h : b ∈ encryptBlockGo xk src) :
    b < 256 := by
  unfold encryptBlockGo at h
  simp only [List.mem_append] at h
  rcases h with ((h | h) | h) | h <;> exact bePutUint32_lt _ _ h

theorem xor_lt_256 (a b : Nat) (ha : a < 256) (hb : b < 256) : a ^^^ b < 256 :=
  Nat.xor_lt_two_pow (n := 8) ha hb

theorem xorBytes_lt : ∀ (x m : List Nat), (∀ b ∈ x, b < 256) → (∀ b ∈ m, b < 256) →
    ∀ b ∈ xorBytes x m, b < 256 := by
  intro x
  induction x with
  | nil => intro m _ _ b hb; simp [xorBytes] at hb
  | cons a x ih =>
    intro m hx hm b hb
    cases m with
    | nil => simp [xorBytes] at hb
    | cons c m =>
      simp only [xorBytes, List.zipWith_cons_cons, List.mem_cons] at hb
      rcases hb with hb | hb
      · subst hb
        exact xor_lt_256 _ _ (hx a (List.mem_cons_self _ _)) (hm c (List.mem_cons_self _ _))
      · exact ih m (fun y hy => hx y (List.mem_cons_of_mem _ hy))
          (fun y hy => hm y (List.mem_cons_of_mem _ hy)) b hb

theorem counterCrypt_lt (g : GCM) (fuel : Nat) :
    ∀ (counter inp : List Nat), (∀ b ∈ inp, b < 256) →
      ∀ b ∈ g.counterCrypt fuel counter inp, b < 256 := by
  induction fuel with
  | zero => intro counter inp _ b hb; simp [GCM.counterCrypt] at hb
  | succ fuel ih =>
    intro counter inp hin b hb
    unfold GCM.counterCrypt at hb
    split at hb
    · simp at hb
    · rw [List.mem_append] at hb
      rcases hb with hb | hb
      · exact xorBytes_lt _ _ (fun y hy => hin y (List.mem_of_mem_take hy))
          (fun y hy => encryptBlockGo_lt _ _ y hy) b hb
      · exact ih _ _ (fun y hy => hin y (List.mem_of_mem_drop hy)) b hb

theorem bePut_lt (n v b : Nat) (h : b ∈ bePut n v) : b < 256 := by
  induction n with
  | zero => simp [bePut] at h
  | succ n ih =>
    simp only [bePut, List.mem_cons] at h
    rcases h with h | h
    · subst h; exact Nat.mod_lt _ (by decide)
    · exact ih h

theorem auth_lt (g : GCM) (ct aad mask : List Nat) (hm : ∀ b ∈ mask, b < 256) :
    ∀ b ∈ g.auth ct aad mask, b < 256 := by
  intro b hb
  unfold GCM.auth at hb
  exact xorBytes_lt _ _ (fun y hy => bePut_lt _ _ y hy) hm b hb

theorem read_lt (r : Rand) (n : Nat) (bs : List Nat) (h : (r.read n).1 = .ok bs) :
    ∀ b ∈ bs, b < 256 := by
  rw [read_fst] at h
  split at h
  · cases h
  · injection h with h
    rw [← h]
    intro b hb
    simp only [List.mem_map] at hb
    obtain ⟨j, _, hj⟩ := hb
    rw [← hj]
    exact Nat.mod_lt _ (by decide)

theorem encodeRune_lt (r : Nat) (hr : r < 0x110000) : ∀ b ∈ encodeRune r, b < 256 := by
  intro b hb
  unfold encodeRune at hb
  split at hb
  · simp only [List.mem_singleton] at hb; omega
  · split at hb
    · simp only [List.mem_cons, List.mem_singleton, List.not_mem_nil, or_false] at hb
      omega
    · split at hb
      · simp only [List.mem_cons, List.mem_singleton, List.not_mem_nil, or_false] at hb
        omega
      · simp only [List.mem_cons, List.mem_singleton, List.not_mem_nil, or_false] at hb
        omega

theorem char_toNat_lt (c : Char) : c.toNat < 0x110000 := by
  have h := c.valid
  simp only [UInt32.isValidChar, Nat.isValidChar] at h
  show c.val.toNat < 0x110000
  omega

theorem utf8Chars_lt : ∀ (cs : List Char), ∀ b ∈ utf8Chars cs, b < 256 := by
  intro cs
  induction cs with
  | nil => intro b hb; simp [utf8Chars] at hb
  | cons c cs ih =>
    intro b hb
    simp only [utf8Chars, List.mem_append] at hb
    rcases hb with hb | hb
    · exact encodeRune_lt _ (char_toNat_lt c) b hb
    · exact ih b hb

theorem bytesOf_lt (s : String) : ∀ b ∈ bytesOf s, b < 256 := utf8Chars_lt _

/-! ## Base64: decoding undoes encoding -/

theorem decodeChar_encodeChar : ∀ i, i < 64 → decodeChar (encodeChar i) = some i := by
  decide

theorem encodeChar_ne_pad : ∀ i, i < 64 → encodeChar i ≠ stdPadding := by
  decide

theorem decodeChar_encodeChar_mod (n : Nat) :
    decodeChar (encodeChar (n % 64)) = some (n % 64) :=
  decodeChar_encodeChar _ (Nat.mod_lt _ (by decide))

theorem encodeChar_mod_eq_pad (n : Nat) : (encodeChar (n % 64) = stdPadding) = False :=
  eq_false (encodeChar_ne_pad _ (Nat.mod_lt _ (by decide)))

theorem decodeChars_encodeChars : ∀ (bs : List Nat), (∀ b ∈ bs, b < 256) →
    decodeChars (encodeChars bs) = some bs := by
  intro bs
  induction bs using encodeChars.induct with
  | case1 a b c rest ih =>
    intro h
    have ha : a < 256 := h a (by simp)
    have hb : b < 256 := h b (by simp)
    have hc : c < 256 := h c (by simp)
    have hrest : ∀ x ∈ rest, x < 256 := fun x hx => h x (by simp [hx])
    simp only [encodeChars, decodeChars, encodeChar_mod_eq_pad, and_false, if_false,
      decodeChar_encodeChar_mod, ih hrest, Option.some.injEq, List.cons.injEq, and_true]
    refine ⟨?_, ?_, ?_⟩ <;> omega
  | case2 a b =>
    intro h
    have ha : a < 256 := h a (by simp)
    have hb : b < 256 := h b (by simp)
    simp only [encodeChars, decodeChars, encodeChar_mod_eq_pad, and_self, if_true, if_false,
      decodeChar_encodeChar_mod, Option.some.injEq, List.cons.injEq, and_true]
    refine ⟨?_, ?_⟩ <;> omega
  | case3 a =>
    intro h
    have ha : a < 256 := h a (by simp)
    simp only [encodeChars, decodeChars, and_self, if_true,
      decodeChar_encodeChar_mod, Option.some.injEq, List.cons.injEq, and_true]
    omega
  | case4 => intro _; rfl

theorem decodeString_encodeToString (bs : List Nat) (h : ∀ b ∈ bs, b < 256) :
    decodeString (encodeToString bs) = some bs :=
  decodeChars_encodeChars bs h

/-! ## Shape of a successful `encrypt` -/

theorem expandStep_length (nk : Nat) (enc : List Nat) :
    (expandStep nk enc).length = enc.length + 1 := by
  simp [expandStep]

theorem iterate_expandStep_length (nk n : Nat) :
    ∀ enc : List Nat, (Nat.iterate (expandStep nk) n enc).length = enc.length + n := by
  induction n with
  | zero => intro enc; rfl
  | succ n ih =>
    intro enc
    rw [Function.iterate_succ_apply, ih, expandStep_length]
    omega

theorem keyWords_length (n : Nat) : ∀ key : List Nat, (keyWords n key).length = n := by
  induction n with
  | zero => intro key; rfl
  | succ n ih => intro key; simp [keyWords, ih]

theorem expandKeyGo_length (key : List Nat) : (expandKeyGo key).length = key.length + 28 := by
  unfold expandKeyGo
  simp only [iterate_expandStep_length, keyWords_length]
  have : key.length / 4 ≤ key.length := Nat.div_le_self _ _
  omega

theorem encrypt_bytes_lt (w : World) (P F : List Nat) (hP : ∀ b ∈ P, b < 256)
    (h : (encrypt w P).1 = .done (F, none)) : ∀ b ∈ F, b < 256 := by
  obtain ⟨_, _, nonce, hr, _, hF⟩ := encrypt_success_inv w P F h
  intro b hb
  rw [hF, List.mem_append, List.mem_append] at hb
  rcases hb with (hb | hb) | hb
  · exact read_lt _ _ _ hr b hb
  · exact counterCrypt_lt _ _ _ _ hP b hb
  · exact auth_lt _ _ _ _ (fun y hy => encryptBlockGo_lt _ _ y hy) b hb

theorem encrypt_length_aux (w : World) (P F : List Nat)
    (h : (encrypt w P).1 = .done (F, none)) : F.length = P.length + 28 := by
  obtain ⟨_, _, nonce, _, hn, hF⟩ := encrypt_success_inv w P F h
  rw [hF, List.length_append, List.length_append, hn,
    counterCrypt_length _ _ _ _ (Nat.le_refl _),
    auth_length _ _ _ _ (AesCipher.encrypt_length _ _)]
  omega

/-! ## Decoding the request body -/

theorem decodeMember_error (m : String × JValue) (req : EncryptRequest) (e : String) :
    (decodeMember (req, some e) m).2 = some e := by
  unfold decodeMember
  split
  · split <;> rfl
  · rfl

theorem foldl_decodeMember_error (ms : List (String × JValue)) :
    ∀ (req : EncryptRequest) (e : String), (ms.foldl decodeMember (req, some e)).2 = some e := by
  induction ms with
  | nil => intro req e; rfl
  | cons m ms ih =>
    intro req e
    rw [List.foldl_cons]
    have h := decodeMember_error m req e
    rcases hd : decodeMember (req, some e) m with ⟨r1, e1⟩
    rw [hd] at h
    simp only at h
    subst h
    exact ih r1 e

/-- A member that selects `data` with a value that is neither a string nor null. -/
theorem decodeMember_bad (m : String × JValue) (st : EncryptRequest × GoError)
    (hk : matchesData m.1 = true) (hs : m.2.isString = false) (hn : m.2.isNull = false) :
    ∃ e, (decodeMember st m).2 = some e ∧ (decodeMember st m).1 = st.1 := by
  obtain ⟨k, v⟩ := m
  obtain ⟨req, err⟩ := st
  cases v <;> cases err <;> simp_all [decodeMember, JValue.isString, JValue.isNull]

theorem decodeMember_skip (m : String × JValue) (st : EncryptRequest × GoError)
    (h : matchesData m.1 = true → m.2.isNull = true) :
    decodeMember st m = st := by
  obtain ⟨k, v⟩ := m
  obtain ⟨req, err⟩ := st
  by_cases hk : matchesData k = true
  · cases v <;> simp_all [decodeMember, JValue.isNull]
  · simp_all [decodeMember]

theorem foldl_decodeMember_bad (ms : List (String × JValue)) :
    ∀ (st : EncryptRequest × GoError),
      (∃ m ∈ ms, matchesData m.1 = true ∧ m.2.isString = false ∧ m.2.isNull = false) →
      ∃ e, (ms.foldl decodeMember st).2 = some e := by
  induction ms with
  | nil => intro st h; simp at h
  | cons m ms ih =>
    intro st h
    rw [List.foldl_cons]
    obtain ⟨x, hx, hk, hs, hn⟩ := h
    rcases List.mem_cons.mp hx with hx | hx
    · subst hx
      obtain ⟨e, he, _⟩ := decodeMember_bad x st hk hs hn
      rcases hd : decodeMember st x with ⟨r1, e1⟩
      rw [hd] at he
      simp only at he
      subst he
      exact ⟨e, foldl_decodeMember_error ms r1 e⟩
    · exact ih _ ⟨x, hx, hk, hs, hn⟩

theorem foldl_decodeMember_skip (ms : List (String × JValue)) :
    ∀ (st : EncryptRequest × GoError),
      (∀ m ∈ ms, matchesData m.1 = true → m.2.isNull = true) →
      ms.foldl decodeMember st = st := by
  induction ms with
  | nil => intro st _; rfl
  | cons m ms ih =>
    intro st h
    rw [List.foldl_cons, decodeMember_skip m st (h m (List.mem_cons_self _ _))]
    exact ih _ (fun x hx => h x (List.mem_cons_of_mem _ hx))

/-! ## The handler, case by case -/

theorem handle_not_post (w : World) (r : Request) (h : r.method ≠ "POST") :
    handleEncrypt w r = (.done (httpError "Method not allowed" 405), w) := by
  unfold handleEncrypt
  rw [if_pos h]

theorem handle_bad_body (w : World) (r : Request) (e : String) (hm : r.method = "POST")
    (hd : (decode r.body).2 = some e) :
    handleEncrypt w r = (.done (httpError e 400), w) := by
  unfold handleEncrypt
  rw [if_neg (by simp [hm])]
  rcases hdec : decode r.body with ⟨req, err⟩
  rw [hdec] at hd
  simp only at hd
  subst hd
  rfl

theorem handle_encrypt_error (w : World) (r : Request) (bs : List Nat) (e : String)
    (hm : r.method = "POST") (hd : (decode r.body).2 = none)
    (he : (encrypt w (bytesOf (decode r.body).1.Data)).1 = .done (bs, some e)) :
    handleEncrypt w r
      = (.done (httpError e 500), (encrypt w (bytesOf (decode r.body).1.Data)).2) := by
  unfold handleEncrypt
  rw [if_neg (by simp [hm])]
  rcases hdec : decode r.body with ⟨req, err⟩
  rw [hdec] at hd he
  simp only at hd he
  subst hd
  simp only
  rcases henc : encrypt w (bytesOf req.Data) with ⟨out, w1⟩
  rw [henc] at he
  simp only at he
  subst he
  rfl

theorem handle_encrypt_ok (w : World) (r : Request) (F : List Nat)
    (hm : r.method = "POST") (hd : (decode r.body).2 = none)
    (he : (encrypt w (bytesOf (decode r.body).1.Data)).1 = .done (F, none)) :
    handleEncrypt w r
      = (.done ⟨200, "application/json", .json ⟨encodeToString F, w.goarch, 0⟩⟩,
          (encrypt w (bytesOf (decode r.body).1.Data)).2) := by
  unfold handleEncrypt
  rw [if_neg (by simp [hm])]
  rcases hdec : decode r.body with ⟨req, err⟩
  rw [hdec] at hd he
  simp only at hd he
  subst hd
  simp only
  rcases henc : encrypt w (bytesOf req.Data) with ⟨out, w1⟩
  rw [henc] at he
  simp only at he
  subst he
  rfl

theorem handle_encrypt_panic (w : World) (r : Request) (msg : String)
    (hm : r.method = "POST") (hd : (decode r.body).2 = none)
    (he : (encrypt w (bytesOf (decode r.body).1.Data)).1 = .panic msg) :
    handleEncrypt w r = (.panic msg, (encrypt w (bytesOf (decode r.body).1.Data)).2) := by
  unfold handleEncrypt
  rw [if_neg (by simp [hm])]
  rcases hdec : decode r.body with ⟨req, err⟩
  rw [hdec] at hd he
  simp only at hd he
  subst hd
  simp only
  rcases henc : encrypt w (bytesOf req.Data) with ⟨out, w1⟩
  rw [henc] at he
  simp only at he
  subst he
  rfl

theorem handle_key (w : World) (r : Request) : (handleEncrypt w r).2.key = w.key := by
  by_cases hm : r.method = "POST"
  · cases hd : (decode r.body).2 with
    | some e => rw [handle_bad_body w r e hm hd]
    | none =>
      cases he : (encrypt w (bytesOf (decode r.body).1.Data)).1 with
      | panic msg => rw [handle_encrypt_panic w r msg hm hd he]; exact encrypt_key _ _
      | done res =>
        obtain ⟨bs, err⟩ := res
        cases err with
        | none => rw [handle_encrypt_ok w r bs hm hd he]; exact encrypt_key _ _
        | some e => rw [handle_encrypt_error w r bs e hm hd he]; exact encrypt_key _ _
  · rw [handle_not_post w r hm]

theorem serve_key (reqs : List Request) : ∀ w : World, (serve w reqs).2.key = w.key := by
  induction reqs with
  | nil => intro w; rfl
  | cons r rs ih =>
    intro w
    unfold serve
    rcases hh : handleEncrypt w r with ⟨out, w1⟩
    have h1 := handle_key w r
    rw [hh] at h1
    simp only at h1
    show (serve w1 rs).2.key = w.key
    rw [ih w1, h1]

theorem init_key_length (rand : Rand) (goarch : String) (w : World)
    (h : init rand goarch = .done w) : w.key.length = 32 := by
  unfold init at h
  rcases hr : rand.read 32 with ⟨res, r1⟩
  have hl := read_length rand 32
  rw [hr] at h hl
  cases res with
  | error e => cases h
  | ok key =>
    simp only at h
    injection h with h
    rw [← h]
    exact hl key rfl

/-! ## Known-answer tests for the cipher model -/

set_option maxRecDepth 1000000 in
/-- FIPS-197 appendix C.3: AES-256 on the key 00 01 .. 1f and the block 00 11 .. ff. -/
theorem aes256_known_answer :
    encryptBlockGo (expandKeyGo (List.range 32)) ((List.range 16).map fun i => 17 * i)
      = [0x8e, 0xa2, 0xb7, 0xca, 0x51, 0x67, 0x45, 0xbf, 0xea, 0xfc, 0x49, 0x90, 0x4b, 0x49,
          0x60, 0x89] := by
  decide

set_option maxRecDepth 1000000 in
/-- GCM specification, test case 14: AES-256-GCM with the zero key and zero nonce on one zero
block, no associated data: ciphertext followed by tag. -/
theorem gcm_known_answer :
    (gcmOf (List.replicate 32 0)).seal [] (List.replicate 12 0) (List.replicate 16 0) []
      = .done [0xce, 0xa7, 0x40, 0x3d, 0x4d, 0x60, 0x6b, 0x6e, 0x07, 0x4e, 0xc5, 0xd3, 0xba, 0xf3,
          0x9d, 0x18, 0xd0, 0xd1, 0xc8, 0xa7, 0x99, 0x99, 0x6b, 0xf0, 0x26, 0x5b, 0x98, 0xb5, 0xd4,
          0x8a, 0xb9, 0x19] := by
  decide

/-! ## Evaluations on the sample inputs -/

set_option maxRecDepth 1000000 in
theorem sample_encrypt_hello :
    (encrypt sampleWorld [104, 101, 108, 108, 111]).1
      = .done ([7, 8, 9, 10, 11, 12, 13, 14, 15, 16, 17, 18, 56, 6, 71, 240, 71, 212, 209, 15, 188,
          217, 212, 39, 119, 143, 131, 66, 243, 7, 140, 223, 179], none) := by
  decide

theorem sample_key_length : sampleWorld.key.length = 32 := by decide

/-! ## The claims -/

/-- C1, length law: whenever `encrypt` returns without error, its output is exactly 28 bytes
longer than the plaintext (12-byte nonce, as many ciphertext bytes as plaintext bytes,
16-byte tag); the plaintext may be empty. -/
theorem encrypt_length_law (w : World) (P F : List Nat)
    (h : (encrypt w P).1 = .done (F, none)) : F.length = P.length + 28 :=
  encrypt_length_aux w P F h

/-- Witness for C1 on the sample world and the plaintext `hello`. -/
theorem encrypt_length_law_witness :
    (encrypt sampleWorld [104, 101, 108, 108, 111]).1
      = .done ([7, 8, 9, 10, 11, 12, 13, 14, 15, 16, 17, 18, 56, 6, 71, 240, 71, 212, 209, 15, 188,
          217, 212, 39, 119, 143, 131, 66, 243, 7, 140, 223, 179], none) ∧
    [7, 8, 9, 10, 11, 12, 13, 14, 15, 16, 17, 18, 56, 6, 71, 240, 71, 212, 209, 15, 188,
      217, 212, 39, 119, 143, 131, 66, 243, 7, 140, 223, 179].length
      = [104, 101, 108, 108, 111].length + 28 :=
  ⟨sample_encrypt_hello, encrypt_length_law _ _ _ sample_encrypt_hello⟩

/-- C2, framing: under a 32-byte key, a successful `encrypt` returns `nonce ++ ct ++ tag`,
where `nonce` is the 12-byte value read from the CSPRNG in that call (offsets 0..11) and
`ct ++ tag` is what AES-256-GCM `Seal` produces for the plaintext under the process key,
that nonce and empty associated data: `ct` as long as the plaintext, `tag` 16 bytes. -/
theorem encrypt_framing (w : World) (P F : List Nat) (hk : w.key.length = 32)
    (h : (encrypt w P).1 = .done (F, none)) :
    ∃ block gcm nonce ct tag,
      newCipher w.key = .ok block ∧ block.enc.length = 60 ∧ newGCM block = .ok gcm ∧
      (w.rand.read 12).1 = .ok nonce ∧ (encrypt w P).2.rand = (w.rand.read 12).2 ∧
      nonce.length = 12 ∧ ct.length = P.length ∧ tag.length = 16 ∧
      gcm.seal [] nonce P [] = .done (ct ++ tag) ∧
      F = nonce ++ ct ++ tag ∧ F.take 12 = nonce ∧ F.drop 12 = ct ++ tag := by
  have hk3 : w.key.length = 16 ∨ w.key.length = 24 ∨ w.key.length = 32 := Or.inr (Or.inr hk)
  obtain ⟨_, hP, nonce, hr, hn, hF⟩ := encrypt_success_inv w P F h
  refine ⟨⟨expandKeyGo w.key⟩, gcmOf w.key, nonce, _, _, newCipher_ok _ hk3, ?_, newGCM_ok _, hr,
    encrypt_rand w P hk3, hn, counterCrypt_length _ _ _ _ (Nat.le_refl _),
    auth_length _ _ _ _ (AesCipher.encrypt_length _ _), ?_, hF, ?_, ?_⟩
  · show (expandKeyGo w.key).length = 60
    rw [expandKeyGo_length, hk]
  · rw [seal_done _ _ _ _ _ (by rw [hn]; rfl) hP, List.nil_append]
  · rw [hF, List.append_assoc, List.take_left' hn]
  · rw [hF, List.append_assoc, List.drop_left' hn]

/-- Witness for C2 on the sample world and the plaintext `hello`. -/
theorem encrypt_framing_witness :
    sampleWorld.key.length = 32 ∧
    ∃ block gcm nonce ct tag,
      newCipher sampleWorld.key = .ok block ∧ block.enc.length = 60 ∧ newGCM block = .ok gcm ∧
      (sampleWorld.rand.read 12).1 = .ok nonce ∧
      (encrypt sampleWorld [104, 101, 108, 108, 111]).2.rand = (sampleWorld.rand.read 12).2 ∧
      nonce.length = 12 ∧ ct.length = [104, 101, 108, 108, 111].length ∧ tag.length = 16 ∧
      gcm.seal [] nonce [104, 101, 108, 108, 111] [] = .done (ct ++ tag) ∧
      [7, 8, 9, 10, 11, 12, 13, 14, 15, 16, 17, 18, 56, 6, 71, 240, 71, 212, 209, 15, 188,
        217, 212, 39, 119, 143, 131, 66, 243, 7, 140, 223, 179] = nonce ++ ct ++ tag ∧
      List.take 12 [7, 8, 9, 10, 11, 12, 13, 14, 15, 16, 17, 18, 56, 6, 71, 240, 71, 212, 209, 15,
        188, 217, 212, 39, 119, 143, 131, 66, 243, 7, 140, 223, 179] = nonce ∧
      List.drop 12 [7, 8, 9, 10, 11, 12, 13, 14, 15, 16, 17, 18, 56, 6, 71, 240, 71, 212, 209, 15,
        188, 217, 212, 39, 119, 143, 131, 66, 243, 7, 140, 223, 179] = ct ++ tag :=
  ⟨sample_key_length, encrypt_framing _ _ _ sample_key_length sample_encrypt_hello⟩

/-- C3, round trip with a known key: for every 32-byte key and every plaintext, if `encrypt`
succeeds with output `F`, then AES-256-GCM `Open` under the same key with nonce `F[0..12)`,
ciphertext and tag `F[12..)` and empty associated data succeeds and returns the plaintext. -/
theorem encrypt_round_trip (w : World) (P F : List Nat) (hk : w.key.length = 32)
    (h : (encrypt w P).1 = .done (F, none)) :
    ∃ block gcm, newCipher w.key = .ok block ∧ block.enc.length = 60 ∧ newGCM block = .ok gcm ∧
      gcm.open [] (F.take 12) (F.drop 12) [] = .done (P, none) := by
  have hk3 : w.key.length = 16 ∨ w.key.length = 24 ∨ w.key.length = 32 := Or.inr (Or.inr hk)
  obtain ⟨_, hP, nonce, hr, hn, hF⟩ := encrypt_success_inv w P F h
  refine ⟨⟨expandKeyGo w.key⟩, gcmOf w.key, newCipher_ok _ hk3, ?_, newGCM_ok _, ?_⟩
  · show (expandKeyGo w.key).length = 60
    rw [expandKeyGo_length, hk]
  · rw [hF, List.append_assoc, List.take_left' hn, List.drop_left' hn]
    exact open_seal (gcmOf w.key) nonce P [] (by rw [hn]; rfl) rfl hP

/-- Witness for C3 on the sample world and the plaintext `hello`. -/
theorem encrypt_round_trip_witness :
    sampleWorld.key.length = 32 ∧
    ∃ block gcm, newCipher sampleWorld.key = .ok block ∧ block.enc.length = 60 ∧
      newGCM block = .ok gcm ∧
      gcm.open []
        (List.take 12 [7, 8, 9, 10, 11, 12, 13, 14, 15, 16, 17, 18, 56, 6, 71, 240, 71, 212, 209,
          15, 188, 217, 212, 39, 119, 143, 131, 66, 243, 7, 140, 223, 179])
        (List.drop 12 [7, 8, 9, 10, 11, 12, 13, 14, 15, 16, 17, 18, 56, 6, 71, 240, 71, 212, 209,
          15, 188, 217, 212, 39, 119, 143, 131, 66, 243, 7, 140, 223, 179]) []
        = .done ([104, 101, 108, 108, 111], none) :=
  ⟨sample_key_length, encrypt_round_trip _ _ _ sample_key_length sample_encrypt_hello⟩

/-- C7, key invariant: after `init` succeeds the key has exactly 32 bytes, and neither
`encrypt` nor `handleEncrypt` nor any sequence of served requests changes it. -/
theorem key_invariant (rand : Rand) (goarch : String) (w : World)
    (h : init rand goarch = .done w) :
    w.key.length = 32 ∧
    (∀ P, (encrypt w P).2.key = w.key) ∧
    (∀ r, (handleEncrypt w r).2.key = w.key) ∧
    ∀ reqs, (serve w reqs).2.key = w.key ∧ (serve w reqs).2.key.length = 32 := by
  have hl := init_key_length rand goarch w h
  refine ⟨hl, fun P => encrypt_key w P, fun r => handle_key w r, fun reqs => ?_⟩
  rw [serve_key reqs w]
  exact ⟨rfl, hl⟩

theorem sample_init : init sampleRand "amd64" = .done sampleWorld := rfl

/-- Witness for C7: the sample world is what `init` produces under the sample CSPRNG. -/
theorem key_invariant_witness :
    init sampleRand "amd64" = .done sampleWorld ∧
    sampleWorld.key.length = 32 ∧
    (∀ P, (encrypt sampleWorld P).2.key = sampleWorld.key) ∧
    (∀ r, (handleEncrypt sampleWorld r).2.key = sampleWorld.key) ∧
    ∀ reqs, (serve sampleWorld reqs).2.key = sampleWorld.key ∧
      (serve sampleWorld reqs).2.key.length = 32 :=
  ⟨sample_init, key_invariant sampleRand "amd64" sampleWorld sample_init⟩

/-- C9, freshness: a successful `encrypt` reads one 12-byte nonce from the CSPRNG and puts it
in front of its output, so two successful calls on the same plaintext whose nonces differ
give outputs that differ, and differ already within their first 12 bytes. -/
theorem encrypt_freshness (w1 w2 : World) (P F1 F2 : List Nat)
    (h1 : (encrypt w1 P).1 = .done (F1, none)) (h2 : (encrypt w2 P).1 = .done (F2, none))
    (hne : (w1.rand.read 12).1 ≠ (w2.rand.read 12).1) :
    (w1.rand.read 12).1 = .ok (F1.take 12) ∧ (w2.rand.read 12).1 = .ok (F2.take 12) ∧
    (encrypt w1 P).2.rand.calls = w1.rand.calls + 1 ∧
    (encrypt w2 P).2.rand.calls = w2.rand.calls + 1 ∧
    (F1.take 12).length = 12 ∧ (F2.take 12).length = 12 ∧
    F1.take 12 ≠ F2.take 12 ∧ F1 ≠ F2 := by
  obtain ⟨hk1, _, n1, hr1, hn1, hF1⟩ := encrypt_success_inv w1 P F1 h1
  obtain ⟨hk2, _, n2, hr2, hn2, hF2⟩ := encrypt_success_inv w2 P F2 h2
  have ht1 : F1.take 12 = n1 := by rw [hF1, List.append_assoc, List.take_left' hn1]
  have ht2 : F2.take 12 = n2 := by rw [hF2, List.append_assoc, List.take_left' hn2]
  have hdiff : F1.take 12 ≠ F2.take 12 := by
    rw [ht1, ht2]
    intro heq
    apply hne
    rw [hr1, hr2, heq]
  refine ⟨by rw [ht1]; exact hr1, by rw [ht2]; exact hr2, ?_, ?_, by rw [ht1]; exact hn1,
    by rw [ht2]; exact hn2, hdiff, fun heq => hdiff (by rw [heq])⟩
  · rw [encrypt_rand w1 P hk1, read_snd]
  · rw [encrypt_rand w2 P hk2, read_snd]

set_option maxRecDepth 1000000 in
theorem sample_encrypt_hello_again :
    (encrypt (encrypt sampleWorld [104, 101, 108, 108, 111]).2 [104, 101, 108, 108, 111]).1
      = .done ([14, 15, 16, 17, 18, 19, 20, 21, 22, 23, 24, 25, 11, 188, 46, 149, 232, 154, 215,
          173, 29, 200, 5, 168, 37, 210, 112, 176, 247, 204, 63, 158, 183], none) := by
  decide

theorem sample_nonces_differ :
    (sampleWorld.rand.read 12).1
      ≠ ((encrypt sampleWorld [104, 101, 108, 108, 111]).2.rand.read 12).1 := by
  decide

/-- Witness for C9: two consecutive encryptions of `hello` in the sample world. -/
theorem encrypt_freshness_witness :
    (sampleWorld.rand.read 12).1 = .ok [7, 8, 9, 10, 11, 12, 13, 14, 15, 16, 17, 18] ∧
    ((encrypt sampleWorld [104, 101, 108, 108, 111]).2.rand.read 12).1
      = .ok [14, 15, 16, 17, 18, 19, 20, 21, 22, 23, 24, 25] ∧
    List.take 12 [7, 8, 9, 10, 11, 12, 13, 14, 15, 16, 17, 18, 56, 6, 71, 240, 71, 212, 209,
        15, 188, 217, 212, 39, 119, 143, 131, 66, 243, 7, 140, 223, 179]
      ≠ List.take 12 [14, 15, 16, 17, 18, 19, 20, 21, 22, 23, 24, 25, 11, 188, 46, 149, 232, 154,
        215, 173, 29, 200, 5, 168, 37, 210, 112, 176, 247, 204, 63, 158, 183] :=
  have h := encrypt_freshness sampleWorld (encrypt sampleWorld [104, 101, 108, 108, 111]).2
    [104, 101, 108, 108, 111] _ _ sample_encrypt_hello sample_encrypt_hello_again
    sample_nonces_differ
  ⟨h.1, h.2.1, h.2.2.2.2.2.2.1⟩

/-- C10, failure modes: with a 32-byte key neither `aes.NewCipher` nor `cipher.NewGCM` fails,
so `encrypt` returns an error exactly when the CSPRNG read of the nonce fails; an error comes
with no bytes, the key is left as it was, and a later call succeeds again as soon as the
CSPRNG delivers a nonce (for a plaintext `Seal` accepts). -/
theorem encrypt_failure_modes (w : World) (P : List Nat) (hk : w.key.length = 32) :
    (∃ block gcm, newCipher w.key = .ok block ∧ newGCM block = .ok gcm) ∧
    ((∃ bs e, (encrypt w P).1 = .done (bs, some e)) ↔ ∃ e, (w.rand.read 12).1 = .error e) ∧
    (∀ bs e, (encrypt w P).1 = .done (bs, some e) →
      bs = [] ∧ (w.rand.read 12).1 = .error e) ∧
    (encrypt w P).2.key = w.key ∧
    (∀ P2 nonce, ((encrypt w P).2.rand.read 12).1 = .ok nonce → P2.length ≤ gcmMaxPlaintext →
      ∃ F, (encrypt (encrypt w P).2 P2).1 = .done (F, none)) := by
  have hk3 : w.key.length = 16 ∨ w.key.length = 24 ∨ w.key.length = 32 := Or.inr (Or.inr hk)
  have herr : ∀ bs e, (encrypt w P).1 = .done (bs, some e) →
      bs = [] ∧ (w.rand.read 12).1 = .error e := by
    intro bs e h
    obtain ⟨hbs, hcase⟩ := encrypt_error_inv w P bs e h
    rcases hcase with ⟨hbad, _⟩ | ⟨_, hr⟩
    · exact absurd hk3 hbad
    · exact ⟨hbs, hr⟩
  refine ⟨⟨⟨expandKeyGo w.key⟩, gcmOf w.key, newCipher_ok _ hk3, newGCM_ok _⟩, ⟨?_, ?_⟩, herr,
    encrypt_key w P, ?_⟩
  · rintro ⟨bs, e, h⟩
    exact ⟨e, (herr bs e h).2⟩
  · rintro ⟨e, hr⟩
    exact ⟨[], e, by rw [encrypt_read_error w P e hk3 hr]⟩
  · intro P2 nonce hr hP2
    have hk3' : (encrypt w P).2.key.length = 16 ∨ (encrypt w P).2.key.length = 24
        ∨ (encrypt w P).2.key.length = 32 := by
      rw [encrypt_key]; exact hk3
    exact ⟨_, by rw [encrypt_read_ok _ P2 nonce hk3' hr hP2]⟩

theorem flaky_key_length : flakyWorld.key.length = 32 := by decide

/-- Witness for C10: in `flakyWorld` the nonce read fails, so `encrypt` returns an error and
no bytes; the next call succeeds. -/
theorem encrypt_failure_modes_witness :
    flakyWorld.key.length = 32 ∧
    (encrypt flakyWorld [104, 101, 108, 108, 111]).1
      = .done ([], some "crypto/rand: read failed") ∧
    (∃ e, (flakyWorld.rand.read 12).1 = .error e) ∧
    (encrypt flakyWorld [104, 101, 108, 108, 111]).2.key = flakyWorld.key ∧
    ∃ F, (encrypt (encrypt flakyWorld [104, 101, 108, 108, 111]).2 [104, 101, 108, 108, 111]).1
      = .done (F, none) :=
  have h := encrypt_failure_modes flakyWorld [104, 101, 108, 108, 111] flaky_key_length
  ⟨flaky_key_length, by decide, h.2.1.mp ⟨[], "crypto/rand: read failed", by decide⟩, h.2.2.2.1,
    h.2.2.2.2 [104, 101, 108, 108, 111] [6, 7, 8, 9, 10, 11, 12, 13, 14, 15, 16, 17] (by decide)
      (by decide)⟩

set_option maxRecDepth 1000000 in
theorem sample_handle_hello :
    (handleEncrypt sampleWorld helloRequest).1
      = .done ⟨200, "application/json",
          .json ⟨"BwgJCgsMDQ4PEBESOAZH8EfU0Q+82dQnd4+DQvMHjN+z", "amd64", 0⟩⟩ := by
  decide

theorem decode_hello : decode helloRequest.body = (⟨"hello"⟩, none) := by decide

theorem decode_emptyData : decode emptyDataRequest.body = (⟨""⟩, none) := by decide

theorem bytesOf_hello : bytesOf "hello" = [104, 101, 108, 108, 111] := by decide

/-- C6, successful response payload: for a POST request whose body decodes to the string `d`
and for which `encrypt` succeeds with framed output `F` on the UTF-8 bytes of `d`, the handler
answers 200 with `encrypted_data` the padded standard base64 of `F`; decoding it gives back
exactly `F`, which is `len(utf8(d)) + 28` bytes long. In particular the body with data the
empty string gives 28 bytes and the body with data hello gives 33. -/
theorem handle_success_payload (w : World) (r : Request) (d : String) (F : List Nat)
    (hm : r.method = "POST") (hd : decode r.body = (⟨d⟩, none))
    (he : (encrypt w (bytesOf d)).1 = .done (F, none)) :
    (handleEncrypt w r).1
      = .done ⟨200, "application/json", .json ⟨encodeToString F, w.goarch, 0⟩⟩ ∧
    decodeString (encodeToString F) = some F ∧
    F.length = (bytesOf d).length + 28 ∧
    (r.body = emptyDataRequest.body → F.length = 28) ∧
    (r.body = helloRequest.body → F.length = 33) := by
  have hd2 : (decode r.body).2 = none := by rw [hd]
  have hd1 : (decode r.body).1.Data = d := by rw [hd]
  have hlen : F.length = (bytesOf d).length + 28 := encrypt_length_aux w _ F he
  refine ⟨?_, ?_, hlen, ?_, ?_⟩
  · rw [handle_encrypt_ok w r F hm hd2 (by rw [hd1]; exact he)]
  · exact decodeString_encodeToString F (encrypt_bytes_lt w _ F (bytesOf_lt d) he)
  · intro hb
    rw [hb, decode_emptyData] at hd
    have hdd : d = "" := by injection hd with h1 _; injection h1 with h1; exact h1.symm
    rw [hlen, hdd]
    rfl
  · intro hb
    rw [hb, decode_hello] at hd
    have hdd : d = "hello" := by injection hd with h1 _; injection h1 with h1; exact h1.symm
    rw [hlen, hdd, bytesOf_hello]
    rfl

/-- Witness for C6: the hello request in the sample world. -/
theorem handle_success_payload_witness :
    helloRequest.method = "POST" ∧ decode helloRequest.body = (⟨"hello"⟩, none) ∧
    (handleEncrypt sampleWorld helloRequest).1
      = .done ⟨200, "application/json",
          .json ⟨encodeToString [7, 8, 9, 10, 11, 12, 13, 14, 15, 16, 17, 18, 56, 6, 71, 240, 71,
            212, 209, 15, 188, 217, 212, 39, 119, 143, 131, 66, 243, 7, 140, 223, 179],
            "amd64", 0⟩⟩ ∧
    decodeString (encodeToString [7, 8, 9, 10, 11, 12, 13, 14, 15, 16, 17, 18, 56, 6, 71, 240, 71,
        212, 209, 15, 188, 217, 212, 39, 119, 143, 131, 66, 243, 7, 140, 223, 179])
      = some [7, 8, 9, 10, 11, 12, 13, 14, 15, 16, 17, 18, 56, 6, 71, 240, 71,
        212, 209, 15, 188, 217, 212, 39, 119, 143, 131, 66, 243, 7, 140, 223, 179] ∧
    [7, 8, 9, 10, 11, 12, 13, 14, 15, 16, 17, 18, 56, 6, 71, 240, 71,
        212, 209, 15, 188, 217, 212, 39, 119, 143, 131, 66, 243, 7, 140, 223, 179].length = 33 :=
  have h := handle_success_payload sampleWorld helloRequest "hello" _ rfl decode_hello
    (by rw [bytesOf_hello]; exact sample_encrypt_hello)
  ⟨rfl, decode_hello, h.1, h.2.1, h.2.2.2.2 rfl⟩

/-- C8, elapsed time: the code does not measure anything. Every response that carries an
`EncryptResponse` has `time_ms` equal to the constant 0 that main.go writes as a placeholder,
whatever time the handling took. -/
theorem time_ms_is_placeholder (w : World) (r : Request) (status : Nat) (contentType : String)
    (resp : EncryptResponse)
    (h : (handleEncrypt w r).1 = .done ⟨status, contentType, .json resp⟩) :
    resp.TimeMs = 0 := by
  by_cases hm : r.method = "POST"
  · cases hd : (decode r.body).2 with
    | some e =>
      rw [handle_bad_body w r e hm hd] at h
      simp only [httpError] at h
      injection h with h
      injection h with _ _ h3
      cases h3
    | none =>
      cases he : (encrypt w (bytesOf (decode r.body).1.Data)).1 with
      | panic msg =>
        rw [handle_encrypt_panic w r msg hm hd he] at h
        cases h
      | done res =>
        obtain ⟨bs, err⟩ := res
        cases err with
        | none =>
          rw [handle_encrypt_ok w r bs hm hd he] at h
          injection h with h
          injection h with _ _ h3
          injection h3 with h3
          rw [← h3]
        | some e =>
          rw [handle_encrypt_error w r bs e hm hd he] at h
          simp only [httpError] at h
          injection h with h
          injection h with _ _ h3
          cases h3
  · rw [handle_not_post w r hm] at h
    simp only [httpError] at h
    injection h with h
    injection h with _ _ h3
    cases h3

/-- Witness for C8: the hello request in the sample world reports `time_ms = 0`. -/
theorem time_ms_is_placeholder_witness :
    (handleEncrypt sampleWorld helloRequest).1
      = .done ⟨200, "application/json",
          .json ⟨"BwgJCgsMDQ4PEBESOAZH8EfU0Q+82dQnd4+DQvMHjN+z", "amd64", 0⟩⟩ ∧
    (⟨"BwgJCgsMDQ4PEBESOAZH8EfU0Q+82dQnd4+DQvMHjN+z", "amd64", 0⟩ : EncryptResponse).TimeMs = 0 :=
  ⟨sample_handle_hello, time_ms_is_placeholder sampleWorld helloRequest _ _ _ sample_handle_hello⟩

theorem utf8Chars_replicate_a (n : Nat) :
    (utf8Chars (List.replicate n 'a')).length = n := by
  induction n with
  | zero => rfl
  | succ n ih =>
    rw [List.replicate_succ, utf8Chars, List.length_append, ih]
    have : encodeRune 'a'.toNat = [97] := by decide
    rw [this]
    simp only [List.length_singleton]
    omega

theorem bytesOf_hugeData_length : (bytesOf hugeData).length = gcmMaxPlaintext + 1 :=
  utf8Chars_replicate_a _

theorem matchesData_data : matchesData "data" = true := by decide

theorem decode_huge : decode hugeRequest.body = (⟨hugeData⟩, none) := by
  show decodeMember (⟨""⟩, none) ("data", JValue.str hugeData) = (⟨hugeData⟩, none)
  unfold decodeMember
  rw [if_pos matchesData_data]

theorem sample_read : (sampleWorld.rand.read 12).1
    = .ok [7, 8, 9, 10, 11, 12, 13, 14, 15, 16, 17, 18] := by decide

theorem encrypt_huge :
    (encrypt sampleWorld (bytesOf hugeData)).1
      = .panic "crypto/cipher: message too large for GCM" := by
  rw [encrypt_too_large sampleWorld (bytesOf hugeData) _ (Or.inr (Or.inr sample_key_length))
    sample_read (by rw [bytesOf_hugeData_length]; exact Nat.lt_succ_self _)]

theorem encrypt_panic_iff (w : World) (P : List Nat) :
    (∃ msg, (encrypt w P).1 = .panic msg) ↔
      (w.key.length = 16 ∨ w.key.length = 24 ∨ w.key.length = 32) ∧
      (∃ nonce, (w.rand.read 12).1 = .ok nonce) ∧ gcmMaxPlaintext < P.length := by
  constructor
  · rintro ⟨msg, h⟩
    obtain ⟨hk, hP, hn, _⟩ := encrypt_panic_inv w P msg h
    exact ⟨hk, hn, hP⟩
  · rintro ⟨hk, ⟨nonce, hr⟩, hP⟩
    exact ⟨_, by rw [encrypt_too_large w P nonce hk hr hP]⟩

/-- C5 as amended, status mapping of `handleEncrypt` for every request: 405 exactly when the
method is not POST (the body is then not decoded, nothing is encrypted and no random bytes are
drawn); otherwise 400, with the decoder's error message and a newline as plain-text body,
exactly when decoding fails; otherwise 500 exactly when `encrypt` returns an error; otherwise
200 with content type application/json exactly when `encrypt` returns bytes. The one remaining
case is a plaintext longer than `gcmMaxPlaintext`: `Seal` panics and the handler writes no
status at all. -/
theorem status_mapping (w : World) (r : Request) :
    (statusOf (handleEncrypt w r).1 = some 405 ↔ r.method ≠ "POST") ∧
    (r.method ≠ "POST" →
      handleEncrypt w r = (.done ⟨405, "text/plain; charset=utf-8",
        .text "Method not allowed\n"⟩, w)) ∧
    (statusOf (handleEncrypt w r).1 = some 400 ↔
      r.method = "POST" ∧ ∃ e, (decode r.body).2 = some e) ∧
    (∀ e, r.method = "POST" → (decode r.body).2 = some e →
      handleEncrypt w r = (.done ⟨400, "text/plain; charset=utf-8", .text (e ++ "\n")⟩, w)) ∧
    (statusOf (handleEncrypt w r).1 = some 500 ↔
      r.method = "POST" ∧ (decode r.body).2 = none ∧
      ∃ bs e, (encrypt w (bytesOf (decode r.body).1.Data)).1 = .done (bs, some e)) ∧
    (statusOf (handleEncrypt w r).1 = some 200 ↔
      r.method = "POST" ∧ (decode r.body).2 = none ∧
      ∃ F, (encrypt w (bytesOf (decode r.body).1.Data)).1 = .done (F, none)) ∧
    (∀ resp, (handleEncrypt w r).1 = .done resp → resp.status = 200 →
      resp.contentType = "application/json") ∧
    (statusOf (handleEncrypt w r).1 = none ↔
      r.method = "POST" ∧ (decode r.body).2 = none ∧
      (w.key.length = 16 ∨ w.key.length = 24 ∨ w.key.length = 32) ∧
      (∃ nonce, (w.rand.read 12).1 = .ok nonce) ∧
      gcmMaxPlaintext < (bytesOf (decode r.body).1.Data).length) := by
  rw [← encrypt_panic_iff]
  by_cases hm : r.method = "POST"
  · cases hd : (decode r.body).2 with
    | some e =>
      rw [handle_bad_body w r e hm hd]
      simp [statusOf, httpError, hm]
    | none =>
      cases he : (encrypt w (bytesOf (decode r.body).1.Data)).1 with
      | panic msg =>
        rw [handle_encrypt_panic w r msg hm hd he]
        simp [statusOf, hm]
      | done res =>
        obtain ⟨bs, err⟩ := res
        cases err with
        | none =>
          rw [handle_encrypt_ok w r bs hm hd he]
          simp [statusOf, hm]
        | some e =>
          rw [handle_encrypt_error w r bs e hm hd he]
          simp [statusOf, httpError, hm]
  · rw [handle_not_post w r hm]
    simp [statusOf, httpError, hm]

/-- Counterexample to C5 as stated: the request is a POST, its body decodes, `encrypt` returns
no error, and yet the status is not 200, because `Seal` panics on the oversized plaintext and
no response is written. -/
theorem status_mapping_counterexample :
    hugeRequest.method = "POST" ∧ (decode hugeRequest.body).2 = none ∧
    (¬ ∃ bs e, (encrypt sampleWorld (bytesOf (decode hugeRequest.body).1.Data)).1
      = .done (bs, some e)) ∧
    (handleEncrypt sampleWorld hugeRequest).1
      = .panic "crypto/cipher: message too large for GCM" ∧
    statusOf (handleEncrypt sampleWorld hugeRequest).1 ≠ some 200 := by
  have hd : (decode hugeRequest.body).2 = none := by rw [decode_huge]
  have hdata : (decode hugeRequest.body).1.Data = hugeData := by rw [decode_huge]
  have he : (encrypt sampleWorld (bytesOf (decode hugeRequest.body).1.Data)).1
      = .panic "crypto/cipher: message too large for GCM" := by
    rw [hdata]; exact encrypt_huge
  refine ⟨rfl, hd, ?_, ?_, ?_⟩
  · rintro ⟨bs, e, h⟩
    rw [he] at h
    cases h
  · rw [handle_encrypt_panic sampleWorld hugeRequest _ rfl hd he]
  · rw [handle_encrypt_panic sampleWorld hugeRequest _ rfl hd he]
    simp [statusOf]

theorem unmarshal_not_object (v : JValue) (ho : v.isObject = false) (hn : v.isNull = false) :
    ∃ e, (unmarshal v).2 = some e := by
  cases v <;> simp_all [unmarshal, JValue.isObject, JValue.isNull]

/-- C4 as amended, for every POST request: a body whose `data` member (the key compared
without regard to case) holds a number, boolean, array or object, and a body that is itself
a string, number, boolean or array, is answered with status 400 and a plain-text error, never
with an `EncryptResponse`. A body without a `data` member, one whose `data` members are all
null, and the body `null` are no decoding errors: they decode to the empty string and are
handled exactly like the body with data the empty string. -/
theorem missing_or_wrong_data (w : World) (r : Request) (hm : r.method = "POST") :
    (∀ ms, r.body = .value (.object ms) →
      (∃ m ∈ ms, matchesData m.1 = true ∧ m.2.isString = false ∧ m.2.isNull = false) →
      ∃ e, handleEncrypt w r
        = (.done ⟨400, "text/plain; charset=utf-8", .text (e ++ "\n")⟩, w)) ∧
    (∀ v, r.body = .value v → v.isObject = false → v.isNull = false →
      ∃ e, handleEncrypt w r
        = (.done ⟨400, "text/plain; charset=utf-8", .text (e ++ "\n")⟩, w)) ∧
    (∀ ms, r.body = .value (.object ms) →
      (∀ m ∈ ms, matchesData m.1 = true → m.2.isNull = true) →
      decode r.body = (⟨""⟩, none) ∧ handleEncrypt w r = handleEncrypt w emptyDataRequest) ∧
    (r.body = .value .null →
      decode r.body = (⟨""⟩, none) ∧ handleEncrypt w r = handleEncrypt w emptyDataRequest) := by
  have hsame : decode r.body = (⟨""⟩, none) →
      handleEncrypt w r = handleEncrypt w emptyDataRequest := by
    intro hd
    unfold handleEncrypt
    rw [if_neg (by simp [hm]), if_neg (by decide), hd, decode_emptyData]
  refine ⟨?_, ?_, ?_, ?_⟩
  · intro ms hb hbad
    obtain ⟨e, he⟩ := foldl_decodeMember_bad ms (⟨""⟩, none) hbad
    exact ⟨e, handle_bad_body w r e hm (by rw [hb]; exact he)⟩
  · intro v hb ho hn
    obtain ⟨e, he⟩ := unmarshal_not_object v ho hn
    exact ⟨e, handle_bad_body w r e hm (by rw [hb]; exact he)⟩
  · intro ms hb hskip
    have hd : decode r.body = (⟨""⟩, none) := by
      rw [hb]
      exact foldl_decodeMember_skip ms _ hskip
    exact ⟨hd, hsame hd⟩
  · intro hb
    have hd : decode r.body = (⟨""⟩, none) := by rw [hb]; rfl
    exact ⟨hd, hsame hd⟩

/-- Witness for amended C4: the POST request with data 5 is answered with status 400. -/
theorem missing_or_wrong_data_witness :
    numberDataRequest.method = "POST" ∧
    ∃ e, handleEncrypt sampleWorld numberDataRequest
      = (.done ⟨400, "text/plain; charset=utf-8", .text (e ++ "\n")⟩, sampleWorld) :=
  ⟨rfl, (missing_or_wrong_data sampleWorld numberDataRequest rfl).1 _ rfl
    ⟨("data", .number "5"), by simp, by decide, rfl, rfl⟩⟩

set_option maxRecDepth 1000000 in
/-- Counterexample to C4 as stated: POST requests whose body is the empty object (no `data`
member) or has `data` null are answered with status 200 and an `encrypted_data` payload,
the encryption of the empty plaintext, not with status 400. -/
theorem missing_data_counterexample :
    (handleEncrypt sampleWorld emptyObjectRequest).1
      = .done ⟨200, "application/json",
          .json ⟨"BwgJCgsMDQ4PEBESRxDY+0IXRAmaLzA0kHWbgg==", "amd64", 0⟩⟩ ∧
    (handleEncrypt sampleWorld nullDataRequest).1
      = .done ⟨200, "application/json",
          .json ⟨"BwgJCgsMDQ4PEBESRxDY+0IXRAmaLzA0kHWbgg==", "amd64", 0⟩⟩ := by
  decide

end CryptoService
